import Mathlib

/-!
# CloudForge pipeline - formal model and verification

A shallow embedding of the core pipeline of the CloudForge repository:

* `src/src/infrastructure/langgraph_pipeline.py` - the stage state machine
  (blueprint → enrich → code → validate → render) with its retry loops;
* `src/src/infrastructure/validator.py` - `DiagramValidator.validate`;
* `src/src/infrastructure/nlp/models.py` - `ArchitectureBlueprint.__str__`;
* `src/src/infrastructure/nlp/architect.py` - `BlueprintArchitect._parse_blueprint_text`;
* `src/src/infrastructure/nlp/chains.py` - `DiagramCoderChain` post-processing
  (`_fix_invalid_service_names`, `_validate_no_imports`, `_validate_generated_code`);
* `src/src/infrastructure/nlp/skill.py` - `AwsMultiAgentSkillPipeline`.

Python strings are modelled as `List Char` (ASCII fragment; the character
classes of the regexes involved, `[A-Z]`, `[a-zA-Z0-9]`, `\w`, `\s`, are
modelled by their ASCII meaning).  Python exceptions are modelled by
`Except`.  External collaborators (the LLM client, the AWS MCP client, the
graphviz renderer, Python's `ast.parse`) are modelled as parameters giving
the outcome of each call, since their behaviour is outside the repository.
-/

namespace CloudForge

abbrev Str := List Char

/-- Python `str.strip()` whitespace: space, tab, newline, carriage return,
vertical tab, form feed. -/
def pyWs (c : Char) : Bool :=
  c == ' ' || c == '\t' || c == '\n' || c == '\r' || c == '\x0b' || c == '\x0c'

/-- Left strip, as in Python `str.lstrip()`. -/
def stripL (s : Str) : Str := s.dropWhile pyWs

/-- Right strip, as in Python `str.rstrip()`. -/
def stripR (s : Str) : Str := (s.reverse.dropWhile pyWs).reverse

/-- Python `str.strip()`. -/
def pyStrip (s : Str) : Str := stripR (stripL s)

/-- Python `str.startswith(pat)`. -/
def startsWith (pat s : Str) : Bool := pat.isPrefixOf s

/-- Python `str.split(sep)` for a one-character separator: splitting the
empty string yields `[""]`. -/
def splitOnChar (sep : Char) : Str → List Str
  | [] => [[]]
  | c :: rest =>
    if c = sep then [] :: splitOnChar sep rest
    else
      match splitOnChar sep rest with
      | [] => [[c]]
      | g :: gs => (c :: g) :: gs

/-- Scanner core for Python `str.count(pat)` with a non-empty pattern.
The first argument is a skip counter: a match at the current position
consumes `pat.length` characters, which the scan encodes by skipping the
remaining `pat.length - 1` characters one at a time (keeping the recursion
structural on the string). -/
def countSubGo (pat : Str) : Nat → Str → Nat
  | _ + 1, [] => 0
  | k + 1, _ :: rest => countSubGo pat k rest
  | 0, [] => 0
  | 0, c :: rest =>
    if pat.isPrefixOf (c :: rest) then 1 + countSubGo pat (pat.length - 1) rest
    else countSubGo pat 0 rest

/-- Python `str.count(pat)` for a non-empty pattern: number of
non-overlapping occurrences, scanning left to right. -/
def countSub (pat s : Str) : Nat := countSubGo pat 0 s

/-- Python `str.find(pat)` for a non-empty pattern, as an `Option`
(`none` models the `-1` result). -/
def findSub (pat : Str) : Str → Option Nat
  | [] => none
  | c :: rest =>
    if pat.isPrefixOf (c :: rest) then some 0
    else (findSub pat rest).map (· + 1)

/-- Python `pat in s`. -/
def containsSub (pat s : Str) : Bool := (findSub pat s).isSome

/-- Scanner core for Python `str.replace` (same skip-counter encoding as
`countSubGo`: a skip of `k` drops the next `k` already-consumed
characters). -/
def replaceAllGo (pat repl : Str) : Nat → Str → Str
  | _ + 1, [] => []
  | k + 1, _ :: rest => replaceAllGo pat repl k rest
  | 0, [] => []
  | 0, c :: rest =>
    if pat.isPrefixOf (c :: rest) then repl ++ replaceAllGo pat repl (pat.length - 1) rest
    else c :: replaceAllGo pat repl 0 rest

/-- Python `s.replace(pat, repl)` for a non-empty pattern: every
non-overlapping occurrence replaced, left to right (also the semantics of
`re.sub` with a literal pattern). -/
def replaceAll (pat repl s : Str) : Str := replaceAllGo pat repl 0 s

/-- Python slice `s[a:b]` (indices clamp like Python's do for `0 ≤ a ≤ b`). -/
def slice (a b : Nat) (s : Str) : Str := (s.drop a).take (b - a)

/-- ASCII digit, for the regex class `[0-9]`. -/
def isDigitC (c : Char) : Bool := '0' ≤ c && c ≤ '9'

/-- ASCII uppercase letter, for the regex class `[A-Z]`. -/
def isUpperC (c : Char) : Bool := 'A' ≤ c && c ≤ 'Z'

/-- ASCII lowercase letter, for the regex class `[a-z]`. -/
def isLowerC (c : Char) : Bool := 'a' ≤ c && c ≤ 'z'

/-- The regex class `[a-zA-Z0-9]`. -/
def isAlnumC (c : Char) : Bool := isUpperC c || isLowerC c || isDigitC c

/-- The regex class `\w` (ASCII fragment). -/
def isWordC (c : Char) : Bool := isAlnumC c || c == '_'

/-- The regex class `\s` (ASCII fragment), same characters as `pyWs`. -/
def isSpaceC (c : Char) : Bool := pyWs c

/-!
## Domain models (`src/src/domain/models.py`)
-/

/-- `ValidationError` value object: `field`, `message`, `severity`. -/
structure VError where
  field : String
  message : String
  severity : String
  deriving DecidableEq, Repr

/-- `DiagramValidation` value object. -/
structure DiagramValidation where
  is_valid : Bool
  errors : List VError
  warnings : List VError
  component_count : Nat
  relationship_count : Nat
  deriving DecidableEq, Repr

/-!
## Pipeline orchestrator (`src/src/infrastructure/langgraph_pipeline.py`)

`DiagramPipelineState` is the langgraph state dict.  The content of the
blueprint and of the generated code play no role in the orchestration
claims, so they are carried as `Option Unit`; `output_files` is the
format → path map returned by the renderer.

Each stage body (`chain.invoke`, `generator.generate`) is an external
call; a stage's behaviour is therefore a parameter
`outcome : Nat → Option String` giving, for the k-th attempt *of that
stage* (k = 0, 1, ...), either `none` (the call returns) or
`some e` (the call raises an exception rendered as the string `e`).
-/

structure PipelineState where
  blueprint : Option Unit
  code : Option Unit
  validation : Option DiagramValidation
  outputFiles : Option (List (String × String))
  errors : List String
  retryCount : Nat
  maxRetries : Nat
  success : Bool
  deriving DecidableEq, Repr

def initialState (maxRetries : Nat) : PipelineState :=
  { blueprint := none, code := none, validation := none, outputFiles := none
    errors := [], retryCount := 0, maxRetries := maxRetries, success := false }

/-- Result of one stage's `while` loop: the state after the loop, whether
the body eventually returned (`ok`), how many times the body was invoked
(`attempts`), and the Python `last_error` variable (initially `None`,
whose `str()` is the string `"None"`). -/
structure LoopOut where
  st : PipelineState
  ok : Bool
  attempts : Nat
  lastErr : String
  deriving DecidableEq, Repr

/-- The retry loop shared by `blueprint_node`, `coder_node` and
`generator_node`:

    while state["retry_count"] <= state["max_retries"]:
        try: ... ; return state
        except Exception as e:
            state["errors"].append(f"<stage> failed: {str(e)}")
            state["retry_count"] += 1

The guard `retry_count ≤ max_retries` is re-evaluated each iteration and
`retry_count` increases by exactly one per failed attempt while
`max_retries` is never written, so the loop runs for exactly
`max_retries + 1 - retry_count` (at entry) further iterations unless the
body returns first; that quantity is the structural fuel below. -/
def nodeLoopGo (outcome : Nat → Option String) (stagePrefix : String)
    (onOk : PipelineState → PipelineState) :
    Nat → Nat → String → PipelineState → LoopOut
  | 0, i, le, st => ⟨st, false, i, le⟩
  | fuel + 1, i, le, st =>
    match outcome i with
    | none => ⟨onOk st, true, i + 1, le⟩
    | some e =>
      nodeLoopGo outcome stagePrefix onOk fuel (i + 1) e
        { st with errors := st.errors ++ [stagePrefix ++ ": " ++ e]
                  retryCount := st.retryCount + 1 }

def nodeLoop (outcome : Nat → Option String) (stagePrefix : String)
    (onOk : PipelineState → PipelineState) (st : PipelineState) : LoopOut :=
  nodeLoopGo outcome stagePrefix onOk (st.maxRetries + 1 - st.retryCount) 0 "None" st

/-- Error propagation: a raised `ValueError` aborts the graph run, but the
`errors` list of the state dict is aliased by the caller's
`initial_state`, so the entries appended before the raise remain visible;
the error value therefore carries the mutated state. -/
abbrev NodeResult := Except (String × PipelineState) PipelineState

/-- After the loop: a body return gives back the state; exhaustion raises
`ValueError(f"<stage> failed after {max_retries} retries: {last_error}")`. -/
def finishLoop (stageName : String) (r : LoopOut) : NodeResult × Nat :=
  if r.ok then (.ok r.st, r.attempts)
  else
    (.error (stageName ++ " failed after " ++ toString r.st.maxRetries
        ++ " retries: " ++ r.lastErr, r.st), r.attempts)

/-- `blueprint_node` (langgraph_pipeline.py lines 58-87).  Also returns the
number of body invocations. -/
def blueprintNode (outcome : Nat → Option String) (st : PipelineState) :
    NodeResult × Nat :=
  finishLoop "Blueprint generation"
    (nodeLoop outcome "Blueprint generation failed"
      (fun s => { s with blueprint := some () }) st)

/-- `enrich_mcp_node` (lines 90-170): with the AWS MCP feature disabled
(the default, `CLOUDFORGE_DISABLE_AWS_MCP` unset means `"1"`), the node
returns the state unchanged; every internal exception is swallowed. -/
def enrichMcpNode (st : PipelineState) : PipelineState := st

/-- `coder_node` (lines 173-208). -/
def coderNode (outcome : Nat → Option String) (st : PipelineState) :
    NodeResult × Nat :=
  if st.blueprint.isNone then
    (.error ("No blueprint available for code generation",
      { st with errors := st.errors ++ ["No blueprint available for code generation"] }), 0)
  else
    finishLoop "Code generation"
      (nodeLoop outcome "Code generation failed" (fun s => { s with code := some () }) st)

/-- `validator_node` (lines 211-254).  The validation report produced by
`DiagramValidator.validate(state["code"])` is passed as a parameter (the
generated code itself is external input).  When the report is invalid the
node appends one summary error and *returns the state*; the source comment
reads "Don't fail, continue to generation (may still work)". -/
def validatorNode (v : DiagramValidation) (st : PipelineState) : NodeResult :=
  if st.code.isNone then
    .error ("No code available for validation",
      { st with errors := st.errors ++ ["No code available for validation"] })
  else
    let st1 := { st with validation := some v }
    if v.is_valid then .ok st1
    else
      .ok { st1 with errors := st1.errors
        ++ ["Validation failed: " ++ toString v.errors.length ++ " errors"] }

/-- `generator_node` (lines 257-296).  On success the renderer returns the
format → path map `files`. -/
def generatorNode (outcome : Nat → Option String) (files : List (String × String))
    (st : PipelineState) : NodeResult × Nat :=
  if st.code.isNone then
    (.error ("No code available for diagram generation",
      { st with errors := st.errors ++ ["No code available for diagram generation"] }), 0)
  else
    finishLoop "Diagram generation"
      (nodeLoop outcome "Diagram generation failed"
        (fun s => { s with outputFiles := some files }) st)

/-- Terminal result of `DiagramPipeline.generate`. -/
structure RunResult where
  success : Bool
  errors : List String
  message : Option String
  deriving DecidableEq, Repr

/-- A pipeline run together with the attempt counts of the three retrying
stages. -/
structure PipeTrace where
  result : RunResult
  bpAttempts : Nat
  coderAttempts : Nat
  genAttempts : Nat
  deriving DecidableEq, Repr

/-- `DiagramPipeline.generate` (lines 355-412) over the linear graph
`blueprint → enrich_mcp → coder → validator → generator`:
runs the stages in order, propagating a raised `ValueError` to the
outer `except`, which returns `success=False` with the accumulated
errors plus the exception text; on normal completion the run succeeds
iff `output_files` is truthy (present and non-empty). -/
def runPipeline (bp cd gen : Nat → Option String) (v : DiagramValidation)
    (files : List (String × String)) (maxRetries : Nat) : PipeTrace :=
  match blueprintNode bp (initialState maxRetries) with
  | (.error (e, st), a1) => ⟨⟨false, st.errors ++ [e], some e⟩, a1, 0, 0⟩
  | (.ok st1, a1) =>
    match coderNode cd (enrichMcpNode st1) with
    | (.error (e, st), a2) => ⟨⟨false, st.errors ++ [e], some e⟩, a1, a2, 0⟩
    | (.ok st2, a2) =>
      match validatorNode v st2 with
      | .error (e, st) => ⟨⟨false, st.errors ++ [e], some e⟩, a1, a2, 0⟩
      | .ok st3 =>
        match generatorNode gen files st3 with
        | (.error (e, st), a3) => ⟨⟨false, st.errors ++ [e], some e⟩, a1, a2, a3⟩
        | (.ok st4, a3) =>
          match st4.outputFiles with
          | some fs =>
            if fs.isEmpty then
              ⟨⟨false, st4.errors ++ ["Pipeline completed but no output files generated"],
                some "Pipeline completed but no output files generated"⟩, a1, a2, a3⟩
            else
              ⟨⟨true, st4.errors, none⟩, a1, a2, a3⟩
          | none =>
            ⟨⟨false, st4.errors ++ ["Pipeline completed but no output files generated"],
              some "Pipeline completed but no output files generated"⟩, a1, a2, a3⟩

/-!
## `DiagramValidator` (`src/src/infrastructure/validator.py`)

`validate` runs four checks.  The syntax check calls Python's `ast.parse`,
a collaborator outside this repository; the list of findings it produces
is therefore a parameter `syntaxErrors` of `validate`.  The remaining
checks (components, security, size) are regex scans modelled exactly.
-/

/-- The fixed component allow-list `_load_aws_components`. -/
def awsComponents : List Str :=
  [("APIGateway").data, ("Lambda").data, ("Dynamodb").data, ("S3").data,
   ("EC2").data, ("RDS").data, ("ElastiCache").data, ("SQS").data,
   ("SNS").data, ("CloudFront").data, ("Route53").data, ("IAM").data,
   ("CloudWatch").data, ("VPC").data, ("SecurityGroup").data, ("ELB").data,
   ("ALB").data, ("NLB").data, ("AutoScaling").data, ("ECS").data,
   ("EKS").data, ("CodeDeploy").data, ("CodePipeline").data,
   ("CodeBuild").data, ("KMS").data]

/-- Greedy continuation of the regex group `(\w+(?:\s*,\s*\w+)*)` after its
first `\w+` has been consumed into `g`: repeatedly match `\s*,\s*\w+`,
appending the exact consumed characters; stop when the next continuation
cannot match.  (Since nothing follows the group in the pattern, greedy
matching never backtracks.) -/
def compListLoopGo (pending : Nat) (g : Str) : Str → Str
  | [] => g
  | c :: rest =>
    match pending with
    | k + 1 => compListLoopGo k g rest
    | 0 =>
      let t := c :: rest
      let sp1 := t.takeWhile isSpaceC
      match t.dropWhile isSpaceC with
      | ',' :: t2 =>
        let sp2 := t2.takeWhile isSpaceC
        let t3 := t2.dropWhile isSpaceC
        let w := t3.takeWhile isWordC
        if w.isEmpty then g
        else
          compListLoopGo (sp1.length + sp2.length + w.length) (g ++ sp1 ++ [','] ++ sp2 ++ w) rest
      | _ => g

def compListLoop (g t : Str) : Str := compListLoopGo 0 g t

/-- Attempt to match
`from diagrams\.aws\.(\w+) import\s+(\w+(?:\s*,\s*\w+)*)` at the head of
`s`.  All the quantified pieces (`\w+`, `\s+`) are followed by characters
outside their own class, so maximal munch is exact.  Returns the text of
group 2 and the total number of characters consumed by the match. -/
def matchFromImportAt (s : Str) : Option (Str × Nat) :=
  if (("from diagrams.aws.").data).isPrefixOf s then
    let t := s.drop 18
    let w1 := t.takeWhile isWordC
    let t1 := t.dropWhile isWordC
    if w1.isEmpty then none
    else if ((" import").data).isPrefixOf t1 then
      let t2 := t1.drop 7
      let sp := t2.takeWhile isSpaceC
      let t3 := t2.dropWhile isSpaceC
      let w := t3.takeWhile isWordC
      if sp.isEmpty || w.isEmpty then none
      else
        let g2 := compListLoop w (t3.drop w.length)
        some (g2, 25 + w1.length + sp.length + g2.length)
    else none
  else none

/-- `re.finditer` over the from-import pattern: scan left to right, on a
match emit group 2 and resume after the match (skip-counter encoding),
otherwise advance one character. -/
def findFromImportsGo : Nat → Str → List Str
  | _ + 1, [] => []
  | k + 1, _ :: rest => findFromImportsGo k rest
  | 0, [] => []
  | 0, c :: rest =>
    match matchFromImportAt (c :: rest) with
    | some p => p.1 :: findFromImportsGo (p.2 - 1) rest
    | none => findFromImportsGo 0 rest

def findFromImports (s : Str) : List Str := findFromImportsGo 0 s

/-- `re.findall` over `(\w+)\s*\(['\"]`: group-1 identifiers of call-like
tokens opening a string literal.  On a failed attempt the scan advances one
character; on success it resumes after the quote (skip-counter encoding). -/
def findInstantiationsGo : Nat → Str → List Str
  | _ + 1, [] => []
  | k + 1, _ :: rest => findInstantiationsGo k rest
  | 0, [] => []
  | 0, c :: rest =>
    let s := c :: rest
    let w := s.takeWhile isWordC
    let t1 := s.dropWhile isWordC
    let sp := t1.takeWhile isSpaceC
    let matched :=
      !w.isEmpty &&
        (match t1.dropWhile isSpaceC with
         | '(' :: q :: _ => q == '\'' || q == '"'
         | _ => false)
    if matched then
      w :: findInstantiationsGo (w.length + sp.length + 1) rest
    else
      findInstantiationsGo 0 rest

def findInstantiations (s : Str) : List Str := findInstantiationsGo 0 s

/-- The finding `_validate_components` produces for an unknown imported
component: severity is `"warning"`. -/
def unknownComponentError (comp : Str) : VError :=
  ⟨"components", "Unknown component: " ++ String.mk comp, "warning"⟩

/-- One step of the inner loop of `_validate_components`: strip the part,
record a finding if it is non-empty and unknown, and add it to
`found_components` either way. -/
def compAccStep (acc : List VError × List Str) (p : Str) : List VError × List Str :=
  ((if pyStrip p ≠ [] ∧ pyStrip p ∉ awsComponents then
      acc.1 ++ [unknownComponentError (pyStrip p)]
    else acc.1),
   acc.2 ++ [pyStrip p])

/-- One match of the from-import regex: split group 2 on commas and fold
the parts. -/
def compGroupStep (acc : List VError × List Str) (g2 : Str) : List VError × List Str :=
  (splitOnChar ',' g2).foldl compAccStep acc

/-- `_validate_components` (validator.py lines 115-144): findings (note the
severity `"warning"` although they are appended to the *errors* list by
`validate`) and the count of instantiations of imported components. -/
def validateComponents (code : Str) : List VError × Nat :=
  let acc := (findFromImports code).foldl compGroupStep ([], [])
  (acc.1, ((findInstantiations code).filter (fun w => w ∈ acc.2)).length)

/-- `_count_relationships`: number of `>>` occurrences. -/
def countRelationships (code : Str) : Nat := countSub ((">>").data) code

/-- The regex `\bopen\s*\(` used by `_validate_security`; the boolean
argument tracks whether the previous character was a word character (for
`\b`). -/
def hasOpenCallGo : Bool → Str → Bool
  | _, [] => false
  | prevWord, c :: rest =>
    if !prevWord && (("open").data).isPrefixOf (c :: rest) &&
        (match ((c :: rest).drop 4).dropWhile isSpaceC with
         | '(' :: _ => true
         | _ => false) then
      true
    else hasOpenCallGo (isWordC c) rest

/-- `_validate_security` (lines 151-177). -/
def validateSecurity (code : Str) : List VError :=
  ((([("exec").data, ("eval").data, ("__import__").data].filter
      (fun f => containsSub f code)).map
    (fun f => (⟨"security", "Dangerous function detected: " ++ String.mk f,
      "warning"⟩ : VError))))
  ++ (if hasOpenCallGo false code then
        [⟨"security", "File operations detected in diagram code", "warning"⟩]
      else [])

/-- `settings.max_components` default. -/
def maxComponents : Nat := 100

/-- `settings.max_relationships` default. -/
def maxRelationships : Nat := 200

/-- The size check of `validate` (lines 64-71). -/
def sizeErrors (code : Str) : List VError :=
  if (validateComponents code).2 > maxComponents then
    [⟨"components", "Too many components: " ++ toString (validateComponents code).2
      ++ " > " ++ toString maxComponents, "error"⟩]
  else []

/-- The relationship-count check of `validate` (lines 73-82). -/
def relErrors (code : Str) : List VError :=
  if countRelationships code > maxRelationships then
    [⟨"relationships", "Too many relationships: " ++ toString (countRelationships code)
      ++ " > " ++ toString maxRelationships, "error"⟩]
  else []

/-- `DiagramValidator.validate` (lines 46-90), with the `ast.parse`-based
syntax findings supplied as the parameter `syntaxErrors`.  Errors
accumulate in source order (syntax, components, size, relationships);
security findings go to `warnings`; `is_valid` is emptiness of `errors`. -/
def validate (syntaxErrors : List VError) (code : Str) : DiagramValidation :=
  ⟨(syntaxErrors ++ (validateComponents code).1 ++ sizeErrors code ++ relErrors code).isEmpty,
   syntaxErrors ++ (validateComponents code).1 ++ sizeErrors code ++ relErrors code,
   validateSecurity code, (validateComponents code).2, countRelationships code⟩

/-!
## `DiagramCoderChain` post-processing (`src/src/infrastructure/nlp/chains.py`)
-/

/-- The exact-alias substitution table of `_fix_invalid_service_names`
(lines 346-393), in source order.  Every pattern is a regex whose only
metacharacter is the escaped `\(`, i.e. a literal string. -/
def serviceNameReplacements : List (Str × Str) :=
  [(("OpenSearch(").data, ("AmazonOpensearchService(").data),
   (("Elasticsearch(").data, ("ElasticsearchService(").data),
   (("DynamoDB(").data, ("DynamodbTable(").data),
   (("EventBridge(").data, ("Eventbridge(").data),
   (("AutoScalingGroup(").data, ("AutoScaling(").data),
   (("CloudWatch(").data, ("Cloudwatch(").data),
   (("X-Ray(").data, ("XRay(").data),
   (("Secrets(").data, ("SecretsManager(").data),
   (("Secrets Manager(").data, ("SecretsManager(").data),
   (("GuardDuty(").data, ("Rack(").data),
   (("Inspector(").data, ("Rack(").data),
   (("Macie(").data, ("Rack(").data),
   (("MediaConvert(").data, ("Rack(").data),
   (("MediaPackage(").data, ("Rack(").data),
   (("MediaLive(").data, ("Rack(").data),
   (("SageMaker(").data, ("Rack(").data),
   (("Bedrock(").data, ("Rack(").data),
   (("IoTDevice(").data, ("Rack(").data),
   (("IoT(").data, ("Rack(").data),
   (("IoTCore(").data, ("Rack(").data),
   (("IoTGreengrass(").data, ("Rack(").data),
   (("IoTSiteWise(").data, ("Rack(").data),
   (("IoTAnalytics(").data, ("Rack(").data),
   (("IoTEvents(").data, ("Rack(").data),
   (("IoTFleetHub(").data, ("Rack(").data),
   (("OnPremise(").data, ("Rack(").data),
   (("OnPremises(").data, ("Rack(").data),
   (("AppFlow(").data, ("Rack(").data),
   (("DataExchange(").data, ("Rack(").data),
   (("FinSpace(").data, ("Rack(").data),
   (("Forecast(").data, ("Rack(").data),
   (("Lookout(").data, ("Rack(").data),
   (("QuickSight(").data, ("Rack(").data),
   (("Timestream(").data, ("Rack(").data)]

/-- The safe-list of the catch-all pass (line 405). -/
def safeNames : List Str :=
  [("Diagram").data, ("Cluster").data, ("Edge").data,
   ("Users").data, ("Internet").data, ("Rack").data]

/-- The catch-all pass
`re.sub(r'\b([A-Z][a-zA-Z0-9]*)\(', ..., code)` (line 405): at a word
boundary, a maximal `[A-Z][a-zA-Z0-9]*` run directly followed by `(` is
kept if the run is in the safe-list and replaced by `Rack(` otherwise
(maximal munch is exact here because every shorter run is followed by an
alphanumeric character, not `(`).  On no match the scan advances one
character; the boolean argument tracks whether the previous character was
a word character (for `\b`), and the `Nat` is the skip counter for
characters already consumed by a match. -/
def catchAllGo : Nat → Bool → Str → Str
  | _ + 1, _, [] => []
  | k + 1, prev, _ :: rest => catchAllGo k prev rest
  | 0, _, [] => []
  | 0, prevWord, c :: rest =>
    if !prevWord && isUpperC c && ((rest.dropWhile isAlnumC).head? == some '(') then
      if (c :: rest.takeWhile isAlnumC) ∈ safeNames then
        (c :: rest.takeWhile isAlnumC) ++ '('
          :: catchAllGo (c :: rest.takeWhile isAlnumC).length false rest
      else
        ("Rack(").data ++ catchAllGo (c :: rest.takeWhile isAlnumC).length false rest
    else c :: catchAllGo 0 (isWordC c) rest

/-- `_fix_invalid_service_names` (lines 340-410): the exact-alias table in
order, then the catch-all pass. -/
def fixInvalidServiceNames (code : Str) : Str :=
  catchAllGo 0 false
    (serviceNameReplacements.foldl (fun s pr => replaceAll pr.1 pr.2 s) code)

/-- Claim-side scanner (the spec claim's reading of "call-like token"): the
string contains some `Name(` where `Name` is a maximal run of identifier
characters (`\w`, underscores included) that starts with a capital letter
at a word boundary, is directly followed by `(`, and is not in the
safe-list.  The boolean argument tracks whether the previous character was
a word character. -/
def hasBadIdentCall : Bool → Str → Bool
  | _, [] => false
  | prev, c :: rest =>
    if !prev && isUpperC c && ((rest.dropWhile isWordC).head? == some '(')
        && !(decide ((c :: rest.takeWhile isWordC) ∈ safeNames)) then true
    else hasBadIdentCall (isWordC c) rest

/-- Claim-side scanner restricted to the token shape the catch-all regex
`\b([A-Z][a-zA-Z0-9]*)\(` actually recognises: a maximal alphanumeric run
starting with a capital letter at a word boundary and directly followed by
`(`, with the run outside the safe-list. -/
def hasBadAlnumCall : Bool → Str → Bool
  | _, [] => false
  | prev, c :: rest =>
    if !prev && isUpperC c && ((rest.dropWhile isAlnumC).head? == some '(')
        && !(decide ((c :: rest.takeWhile isAlnumC) ∈ safeNames)) then true
    else hasBadAlnumCall (isWordC c) rest

/-- `_validate_no_imports` (lines 326-338): first stripped line starting
with `import ` or `from `, if any. -/
def findImportLine : List Str → Option Str
  | [] => none
  | l :: rest =>
    let s := pyStrip l
    if startsWith (("import ").data) s || startsWith (("from ").data) s then some s
    else findImportLine rest

def importForbiddenMsg (s : Str) : String :=
  "Generated code contains forbidden import statement:\n  " ++ String.mk s
    ++ "\nDiagramGenerator pre-imports all symbols. Code should start directly with 'with Diagram(...)'"

def validateNoImports (code : Str) : Except String Unit :=
  match findImportLine (splitOnChar '\n' code) with
  | some s => .error (importForbiddenMsg s)
  | none => .ok ()

/-- Line `idx` has an odd count of unescaped quotes of kind `q`:
`line.count(q) - line.count("\\" + q)` is odd.  Since every occurrence of
backslash-quote contains a quote, the subtraction never truncates, and the
difference is exactly the number of quote characters not immediately
preceded by a backslash. -/
def oddQuotes (q : Char) (line : Str) : Bool :=
  (countSub [q] line - countSub ['\\', q] line) % 2 == 1

/-- A line that triggers the unterminated-string error of
`_validate_generated_code`: not a comment line, and an odd unescaped count
of either quote kind. -/
def badQuoteLine (line : Str) : Bool :=
  !startsWith (("#").data) (pyStrip line)
    && (oddQuotes '\'' line || oddQuotes '"' line)

/-- First offending line of the per-line quote-balance check, with its
1-based index and stripped text. -/
def findUnterminated (idx : Nat) : List Str → Option (Nat × Str)
  | [] => none
  | l :: rest =>
    if badQuoteLine l then some (idx, pyStrip l)
    else findUnterminated (idx + 1) rest

def unterminatedMsg (idx : Nat) (stripped : Str) : String :=
  "Unterminated string on line " ++ toString idx ++ ": " ++ String.mk stripped

/-- `_validate_generated_code` (chains.py lines 421-448): per-line quote
balance, then global parenthesis balance.  The cluster-to-cluster scan only
logs warnings and cannot fail. -/
def validateGeneratedCode (code : Str) : Except String Unit :=
  match findUnterminated 1 (splitOnChar '\n' code) with
  | some p => .error (unterminatedMsg p.1 p.2)
  | none =>
    if countSub ['('] code ≠ countSub [')'] code then
      .error "Unmatched parentheses in generated code"
    else .ok ()

/-- The fence-stripped response text (`invoke` line 307). -/
def stripFences (raw : Str) : Str :=
  pyStrip (replaceAll (("```").data) [] (replaceAll (("```python").data) [] (pyStrip raw)))

/-- The post-processing of `DiagramCoderChain.invoke` (lines 294-320)
applied to the raw LLM response: strip markdown fences, require the token
`Diagram`, repair service names, reject import lines, then run the
structural checks.  A raised `ValueError` is an `Except.error` (the outer
handler re-raises it wrapped in `Code generation failed: ...`). -/
def coderPostProcess (raw : Str) : Except String Str :=
  if !containsSub (("Diagram").data) (stripFences raw) then
    .error "Generated code missing Diagram context"
  else
    match validateNoImports (fixInvalidServiceNames (stripFences raw)) with
    | .error e => .error e
    | .ok _ =>
      match validateGeneratedCode (fixInvalidServiceNames (stripFences raw)) with
      | .error e => .error e
      | .ok _ => .ok (fixInvalidServiceNames (stripFences raw))

/-!
## Multi-agent skill pipeline (`src/src/infrastructure/nlp/skill.py`)

Each sub-agent wraps one LLM-plus-JSON-parse call, a collaborator whose
outcome is a parameter: `Except Unit d` is a call that returns the parsed
dict `d` or raises.  A future's `result(timeout=45)` can additionally raise
`TimeoutError` even though the agent's own `except` never lets an
exception escape; the two timeout flags model that.  The `dict.get`
defaults and the per-item `isinstance` guards of the source are statically
satisfied in this typed embedding.
-/

structure RecItem where
  service : String
  role : String
  deriving DecidableEq, Repr

/-- The dict returned by `ArchitectAgent.invoke` on success. -/
structure ArchDict where
  pattern_labels : List String
  recommended_services : List RecItem
  skill_notes : String
  deriving DecidableEq, Repr

def emptyArchDict : ArchDict := ⟨[], [], ""⟩

/-- The dict returned by `CriticAgent.invoke` on success (only `gaps` is
read afterwards). -/
structure CritDict where
  gaps : List String
  deriving DecidableEq, Repr

/-- `AwsPatternSkillOutput` (nlp/outputs.py): all fields default to
empty. -/
structure SkillOutput where
  pattern_labels : List String
  recommended_services : List RecItem
  skill_notes : String
  deriving DecidableEq, Repr

def emptySkillOutput : SkillOutput := ⟨[], [], ""⟩

/-- `ArchitectAgent.invoke` (skill.py lines 169-182): its own
`except Exception` degrades a failed call to the empty dict. -/
def architectInvoke (llm : Except Unit ArchDict) : ArchDict :=
  match llm with
  | .ok d => d
  | .error _ => emptyArchDict

/-- `CriticAgent.invoke` (lines 193-206). -/
def criticInvoke (llm : Except Unit CritDict) : CritDict :=
  match llm with
  | .ok d => d
  | .error _ => ⟨[]⟩

/-- `ReviewerAgent.synthesize` (lines 217-237): on failure of its own call
it falls back to the architect's notes plus up to two critic gaps. -/
def reviewerSynthesize (llm : Except Unit String) (arch : ArchDict)
    (crit : CritDict) : String :=
  match llm with
  | .ok s => s
  | .error _ =>
    if crit.gaps ≠ [] then
      arch.skill_notes ++ " Missing: "
        ++ String.intercalate "; " (crit.gaps.take 2) ++ "."
    else arch.skill_notes

/-- `AwsMultiAgentSkillPipeline.invoke` (lines 272-292): the two sub-agents
run in parallel and are joined by `Future.result(timeout=45)`; a timeout of
either join raises `TimeoutError` inside `invoke`'s `try`, whose handler
returns the empty output.  Otherwise the architect's dict supplies labels
and services and the reviewer (with fallback) the notes. -/
def skillPipelineInvoke (archLLM : Except Unit ArchDict)
    (critLLM : Except Unit CritDict) (archTimesOut critTimesOut : Bool)
    (revLLM : Except Unit String) : SkillOutput :=
  if archTimesOut || critTimesOut then emptySkillOutput
  else
    let arch := architectInvoke archLLM
    let crit := criticInvoke critLLM
    ⟨arch.pattern_labels, arch.recommended_services,
      reviewerSynthesize revLLM arch crit⟩

/-!
## Blueprint model (`src/src/infrastructure/nlp/models.py`) and the
blueprint text compiler (`src/src/infrastructure/nlp/architect.py`)
-/

/-- `BlueprintNode` (models.py): the source's field `variable` is spelled
`varId` here because `variable` is a Lean keyword. -/
structure BNode where
  name : Str
  varId : Str
  service_type : Str
  region : Option Str
  deriving DecidableEq, Repr

/-- `BlueprintCluster`. -/
structure BCluster where
  name : Str
  nodes : List Str
  deriving DecidableEq, Repr

/-- `BlueprintRelationship`. -/
structure BRel where
  source : Str
  destination : Str
  connection_type : Str
  deriving DecidableEq, Repr

/-- `ArchitectureBlueprint`. -/
structure ArchitectureBlueprint where
  title : Str
  description : Str
  nodes : List BNode
  clusters : List BCluster
  relationships : List BRel
  deriving DecidableEq, Repr

/-- Join with a separator, as Python `sep.join(xs)`. -/
def joinSep (sep : Str) : List Str → Str
  | [] => []
  | [x] => x
  | x :: y :: xs => x ++ sep ++ joinSep sep (y :: xs)

/-- One node line of `ArchitectureBlueprint.__str__`. -/
def formatNodeLine (n : BNode) : Str :=
  ("- ").data ++ n.name ++ (" as ").data ++ n.varId
    ++ (" (Type: ").data ++ n.service_type ++ (")\n").data

/-- One cluster line of `ArchitectureBlueprint.__str__`. -/
def formatClusterLine (c : BCluster) : Str :=
  ("- ").data ++ c.name ++ (" contains ").data
    ++ joinSep ((", ").data) c.nodes ++ [ '\n' ]

/-- One relationship line of `ArchitectureBlueprint.__str__`. -/
def formatRelLine (r : BRel) : Str :=
  ("- ").data ++ r.source ++ (" >> ").data ++ r.destination ++ [ '\n' ]

/-- `ArchitectureBlueprint.__str__` (models.py lines 44-64), the `format`
direction of the blueprint text protocol. -/
def formatBlueprint (b : ArchitectureBlueprint) : Str :=
  ("---BEGIN_BLUEPRINT---\n").data
  ++ ("Title: ").data ++ b.title ++ [ '\n' ]
  ++ ("Description: ").data ++ b.description ++ ("\n\n").data
  ++ ("Nodes:\n").data
  ++ (b.nodes.map formatNodeLine).flatten
  ++ (if b.clusters.isEmpty then []
      else ("\nClusters:\n").data ++ (b.clusters.map formatClusterLine).flatten)
  ++ ("\nRelationships:\n").data
  ++ (b.relationships.map formatRelLine).flatten
  ++ ("---END_BLUEPRINT---\n").data

def beginMarker : Str := ("---BEGIN_BLUEPRINT---").data

def beginMarkerAlt : Str := ("BEGIN_BLUEPRINT").data

def endMarker : Str := ("---END_BLUEPRINT---").data

/-- Marker handling of `_parse_blueprint_text` (architect.py lines
160-186): find the begin marker (falling back to the bare spelling), fail
if absent; if the end marker is absent use the end of the text; slice out
the body and strip it. -/
def extractContent (text : Str) : Except String Str :=
  let s0 := findSub beginMarker text
  let e0 := findSub endMarker text
  let e1 := if s0.isSome && e0.isNone then some text.length else e0
  let s1 := if s0.isNone then findSub beginMarkerAlt text else s0
  match s1 with
  | none => .error "Blueprint start marker not found in response"
  | some si =>
    let ei := match e1 with
      | some x => x
      | none => text.length
    let mlen := if containsSub beginMarker (slice (si - 10) (si + 30) text) then 21 else 15
    .ok (pyStrip (slice (si + mlen) ei text))

/-- The truncation-tolerant body extraction described by the spec: when the
end marker is missing, the whole remainder of the text after the begin
marker is the blueprint body.  Stated from the spec's words, for comparison
with `extractContent`. -/
def extractContentTruncated (text : Str) : Except String Str :=
  let s1 := if (findSub beginMarker text).isNone then findSub beginMarkerAlt text
    else findSub beginMarker text
  match s1 with
  | none => .error "Blueprint start marker not found in response"
  | some si =>
    let mlen := if containsSub beginMarker (slice (si - 10) (si + 30) text) then 21 else 15
    .ok (pyStrip (text.drop (si + mlen)))

/-- Node line grammar (architect.py lines 220-243): split the bullet
content on `|`, need at least three parts, scan the later parts for `ID:`
and `Type:` (last occurrence wins), and require both to be non-empty. -/
def parseNodeLine (content : Str) : Option BNode :=
  let parts := (splitOnChar '|' content).map pyStrip
  if parts.length ≥ 3 then
    let acc := parts.tail.foldl
      (fun (vt : Str × Str) part =>
        if startsWith (("ID:").data) part then (pyStrip (part.drop 3), vt.2)
        else if startsWith (("Type:").data) part then (vt.1, pyStrip (part.drop 5))
        else vt)
      ([], [])
    if acc.1 ≠ [] ∧ acc.2 ≠ [] then some ⟨parts.headD [], acc.1, acc.2, none⟩
    else none
  else none

/-- The relationship regex `^(\w+)\s*>>\s*(\w+)$` (line 266).  Each
quantified class is followed by a character outside the class, so maximal
munch is exact. -/
def matchRelPattern (content : Str) : Option (Str × Str) :=
  let w1 := content.takeWhile isWordC
  if w1.isEmpty then none
  else
    match (content.dropWhile isWordC).dropWhile isSpaceC with
    | '>' :: '>' :: r3 =>
      let r4 := r3.dropWhile isSpaceC
      let w2 := r4.takeWhile isWordC
      if w2.isEmpty || !(r4.dropWhile isWordC).isEmpty then none
      else some (w1, w2)
    | _ => none

/-- The cluster lookahead loop (lines 249-258): consume lines until a blank
line or a bullet, remembering the members of the last `Members:` line.
Returns the members together with the number of lines consumed. -/
def clusterScan (members : List Str) : List Str → List Str × Nat
  | [] => (members, 0)
  | l :: rest =>
    let nl := pyStrip l
    if nl.isEmpty || startsWith (("-").data) nl then (members, 0)
    else
      let r := clusterScan
        (if startsWith (("Members:").data) nl then
          (splitOnChar ',' (pyStrip (nl.drop 8))).map pyStrip
        else members)
        rest
      (r.1, r.2 + 1)

/-- Section labels of the parse loop (`current_section`). -/
inductive BSection
  | nodes
  | clusters
  | relationships
  | metadata
  deriving DecidableEq, Repr

/-- The section-dispatch loop of `_parse_blueprint_text` (lines 197-274),
one `elif` chain per line, with the cluster branch consuming lookahead
lines (skip-counter encoding: the first argument is the number of lines
already consumed by a cluster lookahead). -/
def parseLinesGo : Nat → List Str → Option BSection → ArchitectureBlueprint → ArchitectureBlueprint
  | _ + 1, [], _, b => b
  | k + 1, _ :: rest, sect, b => parseLinesGo k rest sect b
  | 0, [], _, b => b
  | 0, l :: rest, sect, b =>
    let line := pyStrip l
    if line.isEmpty then parseLinesGo 0 rest sect b
    else if startsWith (("Title:").data) line then
      parseLinesGo 0 rest sect { b with title := pyStrip (line.drop 6) }
    else if startsWith (("Description:").data) line then
      parseLinesGo 0 rest sect { b with description := pyStrip (line.drop 12) }
    else if line = ("Nodes:").data then parseLinesGo 0 rest (some .nodes) b
    else if line = ("Clusters:").data then parseLinesGo 0 rest (some .clusters) b
    else if line = ("Relationships:").data then parseLinesGo 0 rest (some .relationships) b
    else if line = ("Metadata:").data then parseLinesGo 0 rest (some .metadata) b
    else if startsWith (("-").data) line ∧ sect = some .nodes then
      match parseNodeLine (pyStrip (line.drop 1)) with
      | some n => parseLinesGo 0 rest sect { b with nodes := b.nodes ++ [n] }
      | none => parseLinesGo 0 rest sect b
    else if startsWith (("Cluster:").data) line ∧ sect = some .clusters then
      parseLinesGo (clusterScan [] rest).2 rest sect
        { b with clusters := b.clusters ++ [⟨pyStrip (line.drop 8), (clusterScan [] rest).1⟩] }
    else if startsWith (("-").data) line ∧ sect = some .relationships then
      match matchRelPattern (pyStrip (line.drop 1)) with
      | some p =>
        parseLinesGo 0 rest sect
          { b with relationships := b.relationships ++ [⟨p.1, p.2, ("default").data⟩] }
      | none => parseLinesGo 0 rest sect b
    else parseLinesGo 0 rest sect b

/-- The defaults of the parsed blueprint dict (lines 189-195). -/
def defaultBlueprint : ArchitectureBlueprint :=
  ⟨("Generated Architecture").data,
   ("Architecture blueprint from natural language").data, [], [], []⟩

/-- `_parse_blueprint_text` (architect.py lines 148-278), the `compile`
direction of the blueprint text protocol. -/
def parseBlueprintText (text : Str) : Except String ArchitectureBlueprint :=
  match extractContent text with
  | .error e => .error e
  | .ok content => .ok (parseLinesGo 0 (splitOnChar '\n' content) none defaultBlueprint)

/-- The title line of `__str__`, without its newline. -/
def titleLine (b : ArchitectureBlueprint) : Str := ("Title: ").data ++ b.title

/-- The description line of `__str__`, without its newline. -/
def descrLine (b : ArchitectureBlueprint) : Str := ("Description: ").data ++ b.description

/-- A node line of `__str__`, without its newline. -/
def nodeLineCore (n : BNode) : Str :=
  ("- ").data ++ n.name ++ (" as ").data ++ n.varId
    ++ (" (Type: ").data ++ n.service_type ++ [ ')' ]

/-- A cluster line of `__str__`, without its newline. -/
def clusterLineCore (c : BCluster) : Str :=
  ("- ").data ++ c.name ++ (" contains ").data ++ joinSep ((", ").data) c.nodes

/-- A relationship line of `__str__`, without its newline. -/
def relLineCore (r : BRel) : Str :=
  ("- ").data ++ r.source ++ (" >> ").data ++ r.destination

/-- The lines of the formatted blueprint between the markers: `__str__`
emits exactly these lines, each terminated by a newline. -/
def bodyLines (b : ArchitectureBlueprint) : List Str :=
  [titleLine b, descrLine b, [], ("Nodes:").data]
  ++ b.nodes.map nodeLineCore
  ++ (if b.clusters.isEmpty then []
      else [[], ("Clusters:").data] ++ b.clusters.map clusterLineCore)
  ++ [[], ("Relationships:").data]
  ++ b.relationships.map relLineCore

/-- Newline-terminate every line and concatenate. -/
def nlTerminated (ls : List Str) : Str := (ls.map (fun l => l ++ [ '\n' ])).flatten

/-- A small blueprint with one node, one cluster and one relationship, for
exercising the format/compile round trip on concrete data. -/
def roundTripCex : ArchitectureBlueprint :=
  ⟨("T").data, ("D").data,
   [⟨("Web").data, ("web").data, ("EC2").data, none⟩],
   [⟨("C1").data, [("web").data]⟩],
   [⟨("a").data, ("b").data, ("default").data⟩]⟩

/-!
## Helper lemmas about the retry loop
-/

/-- Componentwise construction of `LoopOut` equalities. -/
theorem loopOutEq {a1 a2 : PipelineState} {b1 b2 : Bool} {c1 c2 : Nat}
    {d1 d2 : String} (ha : a1 = a2) (hb : b1 = b2) (hc : c1 = c2) (hd : d1 = d2) :
    LoopOut.mk a1 b1 c1 d1 = LoopOut.mk a2 b2 c2 d2 := by
  subst ha hb hc hd
  rfl

/-- Two updates of the same state differing only in the `errors` and
`retryCount` payloads. -/
theorem stateUpdEq (st : PipelineState) {e1 e2 : List String} {r1 r2 : Nat}
    (he : e1 = e2) (hr : r1 = r2) :
    ({ st with errors := e1, retryCount := r1 } : PipelineState)
      = { st with errors := e2, retryCount := r2 } := by
  subst he hr
  rfl

theorem nodeLoopGo_allFail (f : Nat → String) (pfx : String)
    (onOk : PipelineState → PipelineState) :
    ∀ (fuel i : Nat) (le : String) (st : PipelineState),
    nodeLoopGo (fun k => some (f k)) pfx onOk fuel i le st =
      ⟨{ st with
          errors := st.errors ++ ((List.range fuel).map fun j => pfx ++ ": " ++ f (i + j)),
          retryCount := st.retryCount + fuel },
        false, i + fuel, if fuel = 0 then le else f (i + fuel - 1)⟩ := by
  intro fuel
  induction fuel with
  | zero => intro i le st; simp [nodeLoopGo]
  | succ n ih =>
    intro i le st
    simp only [nodeLoopGo]
    rw [ih]
    have hr : (List.range (n + 1)).map (fun j => pfx ++ ": " ++ f (i + j)) =
        (pfx ++ ": " ++ f i) :: (List.range n).map (fun j => pfx ++ ": " ++ f (i + 1 + j)) := by
      rw [List.range_succ_eq_map, List.map_cons, List.map_map]
      refine congrArg (List.cons _) (List.map_congr_left fun a _ => ?_)
      simp only [Function.comp_apply]
      have h : i + Nat.succ a = i + 1 + a := by omega
      rw [h]
    refine loopOutEq
      (stateUpdEq st ?_ (by show st.retryCount + 1 + n = st.retryCount + (n + 1); omega))
      rfl (by omega) ?_
    · rw [hr]
      simp
    · rw [if_neg (Nat.succ_ne_zero n)]
      rcases Nat.eq_zero_or_pos n with h0 | hp
      · subst h0
        rw [if_pos rfl]
        congr 1
      · rw [if_neg (by omega)]
        congr 1
        omega

theorem nodeLoopGo_failUpTo (f : Nat → String) (b : Nat) (pfx : String)
    (onOk : PipelineState → PipelineState) :
    ∀ (fuel i : Nat) (le : String) (st : PipelineState), i ≤ b → b - i < fuel →
    nodeLoopGo (fun k => if k < b then some (f k) else none) pfx onOk fuel i le st =
      ⟨onOk { st with
          errors := st.errors ++ ((List.range (b - i)).map fun j => pfx ++ ": " ++ f (i + j)),
          retryCount := st.retryCount + (b - i) },
        true, b + 1, if i = b then le else f (b - 1)⟩ := by
  intro fuel
  induction fuel with
  | zero => intro i le st _ h2; omega
  | succ n ih =>
    intro i le st h1 h2
    rcases Nat.lt_or_ge i b with hib | hib
    · have hout : (fun k => if k < b then some (f k) else none) i = some (f i) := by
        simp [hib]
      simp only [nodeLoopGo, hout]
      rw [ih (i + 1) (f i) _ (by omega) (by omega)]
      have hr : (List.range (b - i)).map (fun j => pfx ++ ": " ++ f (i + j)) =
          (pfx ++ ": " ++ f i) :: (List.range (b - (i + 1))).map
            (fun j => pfx ++ ": " ++ f (i + 1 + j)) := by
        have hb : b - i = (b - (i + 1)) + 1 := by omega
        rw [hb, List.range_succ_eq_map, List.map_cons, List.map_map]
        refine congrArg (List.cons _) (List.map_congr_left fun a _ => ?_)
        simp only [Function.comp_apply]
        have h : i + Nat.succ a = i + 1 + a := by omega
        rw [h]
      refine loopOutEq
        (congrArg onOk (stateUpdEq st ?_
          (by show st.retryCount + 1 + (b - (i + 1)) = st.retryCount + (b - i); omega)))
        rfl rfl ?_
      · rw [hr]
        simp
      · have hL : (if i + 1 = b then f i else f (b - 1)) = f (b - 1) := by
          split
          · next h => congr 1; omega
          · rfl
        rw [hL, if_neg (by omega)]
    · have hie : i = b := by omega
      have hout : (fun k => if k < b then some (f k) else none) i = none := by
        simp [hie]
      simp only [nodeLoopGo, hout]
      rw [hie]
      simp

/-- The blueprint attempt count of a full run is the blueprint node's own
attempt count, whatever the later stages do. -/
theorem runPipeline_bpAttempts (bp cd gen : Nat → Option String)
    (v : DiagramValidation) (files : List (String × String)) (N : Nat) :
    (runPipeline bp cd gen v files N).bpAttempts = (blueprintNode bp (initialState N)).2 := by
  unfold runPipeline
  repeat' split
  all_goals simp_all

/-- A validation report that passes. -/
def passReport : DiagramValidation := ⟨true, [], [], 0, 0⟩

/-- Agreement of two pipeline states on the fields that drive control flow
and output (everything except the error log and the recorded report). -/
def AgreeCG (s1 s2 : PipelineState) : Prop :=
  s1.code = s2.code ∧ s1.retryCount = s2.retryCount ∧
  s1.maxRetries = s2.maxRetries ∧ s1.outputFiles = s2.outputFiles

theorem nodeLoopGo_congr (outcome : Nat → Option String) (pfx : String)
    (onOk : PipelineState → PipelineState)
    (honOk : ∀ a b, AgreeCG a b → AgreeCG (onOk a) (onOk b)) :
    ∀ (fuel i : Nat) (le : String) (s1 s2 : PipelineState), AgreeCG s1 s2 →
    (nodeLoopGo outcome pfx onOk fuel i le s1).ok
      = (nodeLoopGo outcome pfx onOk fuel i le s2).ok ∧
    (nodeLoopGo outcome pfx onOk fuel i le s1).attempts
      = (nodeLoopGo outcome pfx onOk fuel i le s2).attempts ∧
    AgreeCG (nodeLoopGo outcome pfx onOk fuel i le s1).st
      (nodeLoopGo outcome pfx onOk fuel i le s2).st := by
  intro fuel
  induction fuel with
  | zero => intro i le s1 s2 h; exact ⟨rfl, rfl, h⟩
  | succ n ih =>
    intro i le s1 s2 h
    rcases hout : outcome i with _ | e
    · simp only [nodeLoopGo, hout]
      exact ⟨by simp, by simp, honOk _ _ h⟩
    · simp only [nodeLoopGo, hout]
      refine ih (i + 1) e _ _ ?_
      obtain ⟨h1, h2, h3, h4⟩ := h
      exact ⟨h1, by simp [h2], h3, h4⟩

theorem validatorNode_ok_of_code (v : DiagramValidation) (st : PipelineState)
    (h : st.code.isSome) :
    ∃ st', validatorNode v st = Except.ok st' ∧ AgreeCG st' st ∧ st'.errors =
      (if v.is_valid then st.errors
       else st.errors ++ ["Validation failed: " ++ toString v.errors.length ++ " errors"]) := by
  unfold validatorNode
  have hn : st.code.isNone = false := by
    rcases hc : st.code with _ | u
    · rw [hc] at h; simp at h
    · rfl
  rw [hn]
  rcases hv : v.is_valid with _ | _
  · refine ⟨_, rfl, ⟨rfl, rfl, rfl, rfl⟩, by simp⟩
  · refine ⟨_, rfl, ⟨rfl, rfl, rfl, rfl⟩, by simp⟩

theorem generatorNode_congr (gen : Nat → Option String) (files : List (String × String))
    (s1 s2 : PipelineState) (h : AgreeCG s1 s2) :
    (generatorNode gen files s1).2 = (generatorNode gen files s2).2 ∧
    ((∃ e1 st1 e2 st2, (generatorNode gen files s1).1 = .error (e1, st1) ∧
        (generatorNode gen files s2).1 = .error (e2, st2)) ∨
     (∃ st4 st4', (generatorNode gen files s1).1 = .ok st4 ∧
        (generatorNode gen files s2).1 = .ok st4' ∧ st4.outputFiles = st4'.outputFiles)) := by
  have hfin : ∀ (stage : String) (r1 r2 : LoopOut), r1.ok = r2.ok →
      r1.attempts = r2.attempts → AgreeCG r1.st r2.st →
      (finishLoop stage r1).2 = (finishLoop stage r2).2 ∧
      ((∃ e1 st1 e2 st2, (finishLoop stage r1).1 = .error (e1, st1) ∧
          (finishLoop stage r2).1 = .error (e2, st2)) ∨
       (∃ st4 st4', (finishLoop stage r1).1 = .ok st4 ∧
          (finishLoop stage r2).1 = .ok st4' ∧ st4.outputFiles = st4'.outputFiles)) := by
    intro stage r1 r2 hok hatt hAg
    unfold finishLoop
    rw [← hok, ← hatt]
    rcases hr : r1.ok with _ | _
    · exact ⟨rfl, Or.inl ⟨_, _, _, _, rfl, rfl⟩⟩
    · exact ⟨rfl, Or.inr ⟨_, _, rfl, rfl, hAg.2.2.2⟩⟩
  obtain ⟨h1, h2, h3, h4⟩ := h
  unfold generatorNode
  rw [h1]
  rcases hc : s2.code with _ | u
  · exact ⟨rfl, Or.inl ⟨_, _, _, _, rfl, rfl⟩⟩
  · simp only [Option.isNone_some, Bool.false_eq_true, if_false]
    have honOk : ∀ a b, AgreeCG a b →
        AgreeCG ({ a with outputFiles := some files }) ({ b with outputFiles := some files }) := by
      intro a b hab
      obtain ⟨q1, q2, q3, q4⟩ := hab
      exact ⟨q1, q2, q3, rfl⟩
    have hfuel : s2.maxRetries + 1 - s2.retryCount = s1.maxRetries + 1 - s1.retryCount := by
      rw [h2, h3]
    have hcg := nodeLoopGo_congr gen "Diagram generation failed"
      (fun s => { s with outputFiles := some files })
      (fun a b hab => honOk a b hab)
      (s1.maxRetries + 1 - s1.retryCount) 0 "None" s1 s2 ⟨h1, h2, h3, h4⟩
    obtain ⟨hok, hatt, hAg⟩ := hcg
    have hnl : nodeLoop gen "Diagram generation failed"
        (fun s => { s with outputFiles := some files }) s2 =
        nodeLoopGo gen "Diagram generation failed"
          (fun s => { s with outputFiles := some files })
          (s1.maxRetries + 1 - s1.retryCount) 0 "None" s2 := by
      unfold nodeLoop
      rw [hfuel]
    rw [hnl]
    exact hfin _ _ _ hok hatt hAg

/-- The render stage and the run's terminal success are unaffected by the
validation report recorded by `validator_node`. -/
theorem runPipeline_validation_indep (bp cd gen : Nat → Option String)
    (v v' : DiagramValidation) (files : List (String × String)) (N : Nat) :
    (runPipeline bp cd gen v files N).genAttempts
      = (runPipeline bp cd gen v' files N).genAttempts ∧
    (runPipeline bp cd gen v files N).result.success
      = (runPipeline bp cd gen v' files N).result.success := by
  rcases hb : blueprintNode bp (initialState N) with ⟨r, a1⟩
  cases r with
  | error p =>
    rcases p with ⟨e, st⟩
    constructor <;> simp [runPipeline, hb]
  | ok st1 =>
    rcases hc : coderNode cd (enrichMcpNode st1) with ⟨r2, a2⟩
    cases r2 with
    | error p =>
      rcases p with ⟨e, st⟩
      constructor <;> simp [runPipeline, hb, hc]
    | ok st2 =>
      by_cases hcode : st2.code.isSome
      · obtain ⟨st3, hv3, hA3, _⟩ := validatorNode_ok_of_code v st2 hcode
        obtain ⟨st3', hv3', hA3', _⟩ := validatorNode_ok_of_code v' st2 hcode
        have hAg : AgreeCG st3 st3' := by
          obtain ⟨x1, x2, x3, x4⟩ := hA3
          obtain ⟨y1, y2, y3, y4⟩ := hA3'
          exact ⟨x1.trans y1.symm, x2.trans y2.symm, x3.trans y3.symm, x4.trans y4.symm⟩
        obtain ⟨hatt, hshape⟩ := generatorNode_congr gen files st3 st3' hAg
        rcases hga : generatorNode gen files st3 with ⟨g1, a3⟩
        rcases hgb : generatorNode gen files st3' with ⟨g2, a3b⟩
        rw [hga, hgb] at hatt hshape
        rcases hshape with ⟨e1, se1, e2, se2, hg1, hg2⟩ | ⟨st4, st4', hg1, hg2, hof⟩
        · subst hg1 hg2 hatt
          constructor <;> simp [runPipeline, hb, hc, hv3, hv3', hga, hgb]
        · subst hg1 hg2 hatt
          rcases hof4 : st4.outputFiles with _ | fs
          · rw [hof4] at hof
            constructor <;> simp [runPipeline, hb, hc, hv3, hv3', hga, hgb, hof4, hof.symm]
          · rw [hof4] at hof
            rcases hfs : fs.isEmpty with _ | _ <;>
              constructor <;>
                simp [runPipeline, hb, hc, hv3, hv3', hga, hgb, hof4, hof.symm, hfs]
      · have hvn : st2.code.isNone = true := by
          rcases hcc : st2.code with _ | u
          · rfl
          · rw [hcc] at hcode; simp at hcode
        constructor <;> simp [runPipeline, hb, hc, validatorNode, hvn]

/-!
## Claims C1, C2, C5, C6
-/

/-- Claim C1, counterexample.  The claim says the number of attempts
available to the code stage does not depend on how many retries earlier
stages consumed.  With `maxRetries = 1`, a run whose blueprint stage
consumed one retry gives an always-failing code stage 1 attempt, while a
run whose blueprint stage succeeded at once gives it 2 attempts - the
single shared `retry_count` is never reset between stages. -/
theorem claim_C1_counterexample :
    ¬ ((runPipeline (fun k => if k < 1 then some "boom" else none) (fun _ => some "cboom")
          (fun _ => none) passReport [("png", "out.png")] 1).coderAttempts =
       (runPipeline (fun _ => none) (fun _ => some "cboom")
          (fun _ => none) passReport [("png", "out.png")] 1).coderAttempts) := by
  decide

/-- `nodeLoop` on an always-failing body, with the attempt indices
normalised. -/
theorem nodeLoop_allFail (f : Nat → String) (pfx : String)
    (onOk : PipelineState → PipelineState) (st : PipelineState) :
    nodeLoop (fun k => some (f k)) pfx onOk st =
      ⟨{ st with
          errors := st.errors ++ ((List.range (st.maxRetries + 1 - st.retryCount)).map
            fun j => pfx ++ ": " ++ f j),
          retryCount := st.retryCount + (st.maxRetries + 1 - st.retryCount) },
        false, st.maxRetries + 1 - st.retryCount,
        if st.maxRetries + 1 - st.retryCount = 0 then "None"
        else f (st.maxRetries + 1 - st.retryCount - 1)⟩ := by
  unfold nodeLoop
  rw [nodeLoopGo_allFail]
  refine loopOutEq (stateUpdEq st ?_ rfl) rfl (Nat.zero_add _) ?_
  · exact congrArg (st.errors ++ ·) (List.map_congr_left fun a _ => by rw [Nat.zero_add])
  · split
    · rfl
    · rw [Nat.zero_add]

/-- `nodeLoop` on a body failing its first `b` attempts and then
succeeding, with the attempt indices normalised. -/
theorem nodeLoop_failUpTo (f : Nat → String) (b : Nat) (pfx : String)
    (onOk : PipelineState → PipelineState) (st : PipelineState)
    (hbf : b < st.maxRetries + 1 - st.retryCount) :
    nodeLoop (fun k => if k < b then some (f k) else none) pfx onOk st =
      ⟨onOk { st with
          errors := st.errors ++ ((List.range b).map fun j => pfx ++ ": " ++ f j),
          retryCount := st.retryCount + b },
        true, b + 1, if 0 = b then "None" else f (b - 1)⟩ := by
  unfold nodeLoop
  rw [nodeLoopGo_failUpTo f b pfx onOk _ 0 "None" st (Nat.zero_le b) hbf]
  refine loopOutEq (congrArg onOk (stateUpdEq st ?_ (by rw [Nat.sub_zero]))) rfl rfl rfl
  · rw [Nat.sub_zero]
    exact congrArg (st.errors ++ ·) (List.map_congr_left fun a _ => by rw [Nat.zero_add])

theorem coderNode_allFail (cf : Nat → String) (st : PipelineState)
    (h : st.blueprint.isNone = false) :
    coderNode (fun k => some (cf k)) st =
      (.error ("Code generation failed after " ++ toString st.maxRetries ++ " retries: "
          ++ (if st.maxRetries + 1 - st.retryCount = 0 then "None"
              else cf (st.maxRetries + 1 - st.retryCount - 1)),
        { st with
            errors := st.errors ++ ((List.range (st.maxRetries + 1 - st.retryCount)).map
              fun j => "Code generation failed: " ++ cf j),
            retryCount := st.retryCount + (st.maxRetries + 1 - st.retryCount) }),
        st.maxRetries + 1 - st.retryCount) := by
  unfold coderNode
  rw [h]
  simp only [Bool.false_eq_true, if_false]
  rw [nodeLoop_allFail]
  unfold finishLoop
  rfl

/-- The pipeline state after a blueprint stage that failed `b` attempts and
then succeeded, started from `initialState N`. -/
def bpSuccState (f : Nat → String) (b N : Nat) : PipelineState :=
  ⟨some (), none, none, none,
    (List.range b).map (fun j => "Blueprint generation failed: " ++ f j), b, N, false⟩

/-- Claim C1, amended: retry budgets are *shared* across stages through the
single `retry_count` of the pipeline state, which is never reset between
stages: if the blueprint stage consumes `b ≤ maxRetries` retries before
succeeding, an always-failing code stage is attempted only
`maxRetries + 1 - b` times.  The second half of the original claim stands:
a later-stage failure never re-runs an earlier stage (the blueprint
attempt count does not depend on the behaviour of any later stage). -/
theorem claim_C1 (N b : Nat) (hb : b ≤ N) (f cf : Nat → String)
    (gen : Nat → Option String) (v : DiagramValidation) (files : List (String × String)) :
    (runPipeline (fun k => if k < b then some (f k) else none)
        (fun k => some (cf k)) gen v files N).coderAttempts = N + 1 - b ∧
    (∀ cd cd' gen' v' files',
      (runPipeline (fun k => if k < b then some (f k) else none) cd gen v files N).bpAttempts =
      (runPipeline (fun k => if k < b then some (f k) else none) cd' gen' v' files' N).bpAttempts) := by
  constructor
  · have hloopB := nodeLoopGo_failUpTo f b "Blueprint generation failed"
      (fun s => { s with blueprint := some () }) (N + 1) 0 "None" (initialState N)
      (Nat.zero_le b) (by omega)
    have hbp : blueprintNode (fun k => if k < b then some (f k) else none) (initialState N) =
        (.ok (bpSuccState f b N), b + 1) := by
      unfold blueprintNode nodeLoop
      have hfuel : (initialState N).maxRetries + 1 - (initialState N).retryCount = N + 1 := rfl
      rw [hfuel, hloopB]
      unfold finishLoop bpSuccState
      simp [initialState]
    have hcd := coderNode_allFail cf (bpSuccState f b N) rfl
    simp only [bpSuccState] at hbp hcd
    simp [runPipeline, hbp, enrichMcpNode, hcd]
  · intro cd cd' gen' v' files'
    rw [runPipeline_bpAttempts, runPipeline_bpAttempts]

/-- Witness for the amended claim C1 at `maxRetries = 2` and one consumed
blueprint retry. -/
theorem claim_C1_witness :
    1 ≤ 2 ∧
    (runPipeline (fun k => if k < 1 then some ((fun _ => "x") k) else none)
        (fun k => some ((fun _ => "y") k)) (fun _ => none) passReport [] 2).coderAttempts
      = 2 + 1 - 1 :=
  ⟨by decide, (claim_C1 2 1 (by decide) (fun _ => "x") (fun _ => "y")
      (fun _ => none) passReport []).1⟩

/-- Claim C2: a run started with `maxRetries = N` and `retryCount = 0`
attempts the (always-throwing) blueprint stage exactly `N + 1` times,
appending one error string per attempt, and the stage's final failure
becomes the run's terminal failure (with its summary message appended as
the last error). -/
theorem claim_C2 (N : Nat) (f : Nat → String) (cd gen : Nat → Option String)
    (v : DiagramValidation) (files : List (String × String)) :
    (runPipeline (fun k => some (f k)) cd gen v files N).bpAttempts = N + 1 ∧
    (runPipeline (fun k => some (f k)) cd gen v files N).result.success = false ∧
    (runPipeline (fun k => some (f k)) cd gen v files N).result.errors =
      ((List.range (N + 1)).map fun j => "Blueprint generation failed: " ++ f j)
        ++ ["Blueprint generation failed after " ++ toString N ++ " retries: " ++ f N] := by
  have hloop := nodeLoopGo_allFail f "Blueprint generation failed"
    (fun s => { s with blueprint := some () }) (N + 1) 0 "None" (initialState N)
  have hbp : blueprintNode (fun k => some (f k)) (initialState N) =
      (.error ("Blueprint generation failed after " ++ toString N ++ " retries: " ++ f N,
        { initialState N with
            errors := (List.range (N + 1)).map fun j => "Blueprint generation failed: " ++ f j,
            retryCount := N + 1 }), N + 1) := by
    unfold blueprintNode nodeLoop
    have hfuel : (initialState N).maxRetries + 1 - (initialState N).retryCount = N + 1 := rfl
    rw [hfuel, hloop]
    unfold finishLoop
    simp [initialState]
  refine ⟨?_, ?_, ?_⟩ <;> simp [runPipeline, hbp]

/-- Claim C5, counterexample.  A run whose validation report contains a
finding of severity `"error"` still proceeds to the render stage (one
render attempt happens) and terminates successfully - `validator_node`
records the failure but continues ("Don't fail, continue to generation"). -/
theorem claim_C5_counterexample :
    (runPipeline (fun _ => none) (fun _ => none) (fun _ => none)
        ⟨false, [⟨"syntax", "invalid syntax", "error"⟩], [], 1, 0⟩
        [("png", "out.png")] 3).result.success = true ∧
    (runPipeline (fun _ => none) (fun _ => none) (fun _ => none)
        ⟨false, [⟨"syntax", "invalid syntax", "error"⟩], [], 1, 0⟩
        [("png", "out.png")] 3).genAttempts = 1 := by
  constructor <;> rfl

/-- Claim C5, amended: a validation report with error findings never blocks
the pipeline.  `validator_node` returns normally whenever code is present,
appending a summary entry to the error list when the report is invalid
(and nothing otherwise), and the render stage's attempts and the run's
terminal success are independent of the validation report; in particular
a warnings-only report also never blocks. -/
theorem claim_C5 (v : DiagramValidation) (st : PipelineState) (hcode : st.code.isSome)
    (bp cd gen : Nat → Option String) (v' : DiagramValidation)
    (files : List (String × String)) (N : Nat) :
    (∃ st', validatorNode v st = Except.ok st' ∧
       st'.errors = (if v.is_valid then st.errors
         else st.errors ++ ["Validation failed: " ++ toString v.errors.length ++ " errors"])) ∧
    (runPipeline bp cd gen v files N).genAttempts
      = (runPipeline bp cd gen v' files N).genAttempts ∧
    (runPipeline bp cd gen v files N).result.success
      = (runPipeline bp cd gen v' files N).result.success := by
  obtain ⟨st', hok, _, herr⟩ := validatorNode_ok_of_code v st hcode
  exact ⟨⟨st', hok, herr⟩, runPipeline_validation_indep bp cd gen v v' files N⟩

/-- Witness for claim C5: a concrete state with code present and an
invalid report; the validator returns normally and, on a fully concrete
run, the report does not change the render behaviour. -/
theorem claim_C5_witness :
    ((⟨none, some (), none, none, [], 0, 1, false⟩ : PipelineState).code.isSome = true) ∧
    (∃ st', validatorNode ⟨false, [⟨"syntax", "boom", "error"⟩], [], 0, 0⟩
        (⟨none, some (), none, none, [], 0, 1, false⟩ : PipelineState) = Except.ok st' ∧
      st'.errors = (if (false : Bool) then ([] : List String)
        else [] ++ ["Validation failed: " ++ toString (1 : Nat) ++ " errors"])) :=
  ⟨rfl, by
    have h := claim_C5 ⟨false, [⟨"syntax", "boom", "error"⟩], [], 0, 0⟩
      (⟨none, some (), none, none, [], 0, 1, false⟩ : PipelineState) rfl
      (fun _ => none) (fun _ => none) (fun _ => none) passReport [] 0
    exact h.1⟩

/-- Claim C6, counterexample.  When only the critic's join times out, the
whole enrichment degrades to the empty output: the architect's (non-empty)
pattern labels are discarded, contradicting "the other sub-agent's output
is still used". -/
theorem claim_C6_counterexample :
    skillPipelineInvoke (.ok ⟨["Serverless API"], [], "notes"⟩) (.ok ⟨["no DLQ"]⟩)
      false true (.ok "insight") = emptySkillOutput := by
  rfl

/-- Claim C6, amended: `invoke` is total (never raises).  A sub-call that
*fails* degrades to the empty dict while the other agent's output is still
used, but a *timeout* of either join makes the whole `invoke` return the
empty `PatternAssessment`, discarding the other agent's output; on total
failure the result is the empty `PatternAssessment`. -/
theorem claim_C6 :
    (∀ a c r, skillPipelineInvoke a c true false r = emptySkillOutput ∧
              skillPipelineInvoke a c false true r = emptySkillOutput ∧
              skillPipelineInvoke a c true true r = emptySkillOutput) ∧
    (∀ c r, skillPipelineInvoke (.error ()) c false false r =
            skillPipelineInvoke (.ok emptyArchDict) c false false r) ∧
    (∀ a r, skillPipelineInvoke a (.error ()) false false r =
            skillPipelineInvoke a (.ok ⟨[]⟩) false false r) ∧
    skillPipelineInvoke (.error ()) (.error ()) false false (.error ()) = emptySkillOutput := by
  exact ⟨fun a c r => ⟨rfl, rfl, rfl⟩, fun c r => rfl, fun a r => rfl, rfl⟩

/-!
## Claims C8, C9, C10
-/

theorem foldl_compAccStep_mem (parts : List Str) :
    ∀ (acc : List VError × List Str), ∀ e ∈ (parts.foldl compAccStep acc).1,
      e ∈ acc.1 ∨ ∃ c, e = unknownComponentError c := by
  induction parts with
  | nil => intro acc e he; exact Or.inl he
  | cons p ps ih =>
    intro acc e he
    rcases ih (compAccStep acc p) e he with hmem | hc
    · simp only [compAccStep] at hmem
      by_cases hcond : pyStrip p ≠ [] ∧ pyStrip p ∉ awsComponents
      · rw [if_pos hcond] at hmem
        rcases List.mem_append.mp hmem with h2 | h2
        · exact Or.inl h2
        · exact Or.inr ⟨pyStrip p, List.mem_singleton.mp h2⟩
      · rw [if_neg hcond] at hmem
        exact Or.inl hmem
    · exact Or.inr hc

theorem foldl_compGroupStep_mem (groups : List Str) :
    ∀ (acc : List VError × List Str), ∀ e ∈ (groups.foldl compGroupStep acc).1,
      e ∈ acc.1 ∨ ∃ c, e = unknownComponentError c := by
  induction groups with
  | nil => intro acc e he; exact Or.inl he
  | cons g gs ih =>
    intro acc e he
    rcases ih (compGroupStep acc g) e he with hmem | hc
    · unfold compGroupStep at hmem
      exact foldl_compAccStep_mem _ _ _ hmem
    · exact Or.inr hc

theorem validateComponents_shape (code : Str) :
    ∀ e ∈ (validateComponents code).1, ∃ c, e = unknownComponentError c := by
  intro e he
  unfold validateComponents at he
  rcases foldl_compGroupStep_mem _ _ _ he with h | h
  · simp at h
  · exact h

theorem validateSecurity_field (code : Str) :
    ∀ w ∈ validateSecurity code, w.field = "security" := by
  intro w hw
  unfold validateSecurity at hw
  rcases List.mem_append.mp hw with h | h
  · obtain ⟨f, _, hf⟩ := List.mem_map.mp h
    rw [← hf]
  · by_cases hc : hasOpenCallGo false code = true
    · rw [if_pos hc] at h
      rw [List.mem_singleton.mp h]
    · rw [if_neg hc] at h
      simp at h

/-- Claim C10: an unknown component named on a `diagrams.aws` import line
yields a finding of severity `"warning"` that `validate` nonetheless
appends to the `errors` list (never to `warnings`), and since `is_valid`
is emptiness of `errors`, one such finding alone makes the report invalid
(whatever the syntax check contributed). -/
theorem claim_C10 (code : Str) (syntaxErrors : List VError)
    (h : (validateComponents code).1 ≠ []) :
    (validate syntaxErrors code).is_valid = false ∧
    ∀ e ∈ (validateComponents code).1,
      e.severity = "warning" ∧ e ∈ (validate syntaxErrors code).errors ∧
        e ∉ (validate syntaxErrors code).warnings := by
  constructor
  · unfold validate
    rcases hc : (validateComponents code).1 with _ | ⟨e0, es⟩
    · exact absurd hc h
    · simp [hc]
  · intro e he
    obtain ⟨c, hcform⟩ := validateComponents_shape code e he
    refine ⟨by rw [hcform]; rfl, ?_, ?_⟩
    · unfold validate
      simp only [List.mem_append]
      exact Or.inl (Or.inl (Or.inr he))
    · intro hw
      have hf := validateSecurity_field code e hw
      have hfc : e.field = "components" := by rw [hcform]; rfl
      rw [hfc] at hf
      exact absurd hf (by decide)

/-- Witness for claim C10: a concrete import of an unknown component. -/
theorem claim_C10_witness :
    ((validateComponents (("from diagrams.aws.ml import Sagemaker").data)).1 ≠ []) ∧
    (validate [] (("from diagrams.aws.ml import Sagemaker").data)).is_valid = false :=
  ⟨by decide, (claim_C10 (("from diagrams.aws.ml import Sagemaker").data) [] (by decide)).1⟩

theorem findImportLine_isSome (ls : List Str)
    (h : ∃ l ∈ ls, startsWith (("import ").data) (pyStrip l) = true ∨
      startsWith (("from ").data) (pyStrip l) = true) :
    ∃ s, findImportLine ls = some s := by
  induction ls with
  | nil => simp at h
  | cons l rest ih =>
    unfold findImportLine
    by_cases hc : (startsWith (("import ").data) (pyStrip l)
        || startsWith (("from ").data) (pyStrip l)) = true
    · rw [if_pos hc]
      exact ⟨_, rfl⟩
    · rw [if_neg hc]
      rcases h with ⟨l', hl', hs⟩
      rcases List.mem_cons.mp hl' with he | hm
      · subst he
        rcases hs with hs | hs <;> simp [hs] at hc
      · exact ih ⟨l', hm, hs⟩

theorem findImportLine_none (ls : List Str) (h : findImportLine ls = none) :
    ∀ l ∈ ls, startsWith (("import ").data) (pyStrip l) = false ∧
      startsWith (("from ").data) (pyStrip l) = false := by
  induction ls with
  | nil => intro l hl; simp at hl
  | cons l0 rest ih =>
    intro l hl
    unfold findImportLine at h
    by_cases hc : (startsWith (("import ").data) (pyStrip l0)
        || startsWith (("from ").data) (pyStrip l0)) = true
    · rw [if_pos hc] at h
      exact absurd h (by simp)
    · rw [if_neg hc] at h
      rcases List.mem_cons.mp hl with he | hm
      · subst he
        constructor
        · rcases hb : startsWith (("import ").data) (pyStrip l) with _ | _
          · rfl
          · exact absurd (by rw [hb]; simp) hc
        · rcases hb : startsWith (("from ").data) (pyStrip l) with _ | _
          · rfl
          · exact absurd (by rw [hb]; simp) hc
      · exact ih h l hm

/-- Claim C9: a code string with a line whose stripped text starts with the
keyword `import ` or `from ` is rejected by `_validate_no_imports`
(`ValueError`, modelled as `Except.error`), and conversely any code that
the coder post-processing returns (and hence the only code that can reach
the renderer) contains no such line. -/
theorem claim_C9 :
    (∀ code : Str, (∃ l ∈ splitOnChar '\n' code,
        startsWith (("import ").data) (pyStrip l) = true ∨
        startsWith (("from ").data) (pyStrip l) = true) →
      ∃ msg, validateNoImports code = Except.error msg) ∧
    (∀ raw code : Str, coderPostProcess raw = Except.ok code →
      ∀ l ∈ splitOnChar '\n' code,
        startsWith (("import ").data) (pyStrip l) = false ∧
        startsWith (("from ").data) (pyStrip l) = false) := by
  constructor
  · intro code h
    obtain ⟨s, hs⟩ := findImportLine_isSome _ h
    exact ⟨importForbiddenMsg s, by unfold validateNoImports; rw [hs]⟩
  · intro raw code hok
    unfold coderPostProcess at hok
    generalize hfx : fixInvalidServiceNames (stripFences raw) = fx at hok
    generalize hsf : stripFences raw = sf at hok
    split at hok
    · exact absurd hok (by simp)
    · rcases hni : validateNoImports fx with e | u
      · rw [hni] at hok
        exact absurd hok (by simp)
      · rw [hni] at hok
        rcases hvg : validateGeneratedCode fx with e | u2
        · rw [hvg] at hok
          exact absurd hok (by simp)
        · rw [hvg] at hok
          have hcode : code = fx := by
            cases hok
            rfl
          unfold validateNoImports at hni
          rcases hfi : findImportLine (splitOnChar '\n' fx) with _ | s
          · rw [hcode]
            exact findImportLine_none _ hfi
          · rw [hfi] at hni
            exact absurd hni (by simp)

/-- Witness for claim C9: `import os` is rejected; a clean diagram snippet
passes post-processing and contains no import lines. -/
theorem claim_C9_witness :
    (∃ l ∈ splitOnChar '\n' (("import os").data),
        startsWith (("import ").data) (pyStrip l) = true ∨
        startsWith (("from ").data) (pyStrip l) = true) ∧
    (∃ msg, validateNoImports (("import os").data) = Except.error msg) :=
  ⟨by decide, (claim_C9).1 (("import os").data) (by decide)⟩

theorem findUnterminated_spec (ls : List Str) :
    ∀ idx : Nat, (∃ l ∈ ls, badQuoteLine l = true) →
    ∃ j, j < ls.length ∧ badQuoteLine (ls.getD j []) = true ∧
      findUnterminated idx ls = some (idx + j, pyStrip (ls.getD j [])) := by
  induction ls with
  | nil => intro idx h; simp at h
  | cons l rest ih =>
    intro idx h
    by_cases hb : badQuoteLine l = true
    · refine ⟨0, by simp, by simpa using hb, ?_⟩
      unfold findUnterminated
      rw [if_pos hb]
      simp
    · have hrest : ∃ l' ∈ rest, badQuoteLine l' = true := by
        rcases h with ⟨l', hl', hq⟩
        rcases List.mem_cons.mp hl' with he | hm
        · subst he; exact absurd hq hb
        · exact ⟨l', hm, hq⟩
      obtain ⟨j, hj, hq, hf⟩ := ih (idx + 1) hrest
      refine ⟨j + 1, by simpa using Nat.succ_lt_succ hj, by simpa using hq, ?_⟩
      unfold findUnterminated
      rw [if_neg hb, hf]
      refine congrArg some (congrArg₂ Prod.mk (by omega) rfl)

/-- Claim C8: if some non-comment line of the code has an odd count of
unescaped single or double quotes (`badQuoteLine`, the per-line check of
`_validate_generated_code`), validation rejects the code with an
`Unterminated string` error naming the 1-based index and stripped text of
the (first) offending line. -/
theorem claim_C8 (code : Str)
    (h : ∃ l ∈ splitOnChar '\n' code, badQuoteLine l = true) :
    ∃ j, j < (splitOnChar '\n' code).length ∧
      badQuoteLine ((splitOnChar '\n' code).getD j []) = true ∧
      validateGeneratedCode code = Except.error
        (unterminatedMsg (1 + j) (pyStrip ((splitOnChar '\n' code).getD j []))) := by
  obtain ⟨j, hj, hq, hf⟩ := findUnterminated_spec (splitOnChar '\n' code) 1 h
  refine ⟨j, hj, hq, ?_⟩
  unfold validateGeneratedCode
  rw [hf]

/-- Witness for claim C8: a line with a single unterminated quote. -/
theorem claim_C8_witness :
    (∃ l ∈ splitOnChar '\n' (("x = 'abc").data), badQuoteLine l = true) ∧
    (∃ j, j < (splitOnChar '\n' (("x = 'abc").data)).length ∧
      badQuoteLine ((splitOnChar '\n' (("x = 'abc").data)).getD j []) = true ∧
      validateGeneratedCode (("x = 'abc").data) = Except.error
        (unterminatedMsg (1 + j) (pyStrip ((splitOnChar '\n' (("x = 'abc").data)).getD j [])))) :=
  ⟨by decide, claim_C8 (("x = 'abc").data) (by decide)⟩

/-!
## Claim C4: the catch-all identifier-repair guarantee

The catch-all regex quantifies over `[a-zA-Z0-9]`, not `\w`: an identifier
containing an underscore is never matched (the underscore is a word
character, so no `\b` boundary splits it, and it is outside the quantified
class, so no run crosses it).  The guarantee therefore holds exactly for
maximal alphanumeric call tokens and fails for identifier tokens with
underscores.
-/

theorem bool_not_true {b : Bool} (h : ¬ b = true) : b = false := by
  cases b
  · rfl
  · exact absurd rfl h

theorem upper_alnum {c : Char} (h : isUpperC c = true) : isAlnumC c = true := by
  simp [isAlnumC, h]

theorem alnum_word {c : Char} (h : isAlnumC c = true) : isWordC c = true := by
  simp [isWordC, h]

theorem upper_word {c : Char} (h : isUpperC c = true) : isWordC c = true :=
  alnum_word (upper_alnum h)

theorem word_lparen : isWordC '(' = false := by decide

theorem alnum_lparen : isAlnumC '(' = false := by decide

theorem mem_takeWhile_all (p : Char → Bool) (l : Str) :
    ∀ x ∈ l.takeWhile p, p x = true := by
  induction l with
  | nil => intro x hx; exact absurd hx (List.not_mem_nil x)
  | cons y ys ih =>
    intro x hx
    cases hy : p y with
    | false =>
      rw [List.takeWhile_cons, if_neg (by simp [hy])] at hx
      exact absurd hx (List.not_mem_nil x)
    | true =>
      rw [List.takeWhile_cons, if_pos hy] at hx
      rcases List.mem_cons.mp hx with hxy | hx'
      · rw [hxy]; exact hy
      · exact ih x hx'

theorem all_of_dropWhile_nil (p : Char → Bool) (l : Str) :
    l.dropWhile p = [] → ∀ x ∈ l, p x = true := by
  induction l with
  | nil => intro _ x hx; exact absurd hx (List.not_mem_nil x)
  | cons y ys ih =>
    intro h x hx
    cases hy : p y with
    | false =>
      rw [List.dropWhile_cons, if_neg (by simp [hy])] at h
      exact absurd h (by simp)
    | true =>
      rw [List.dropWhile_cons, if_pos hy] at h
      rcases List.mem_cons.mp hx with hxy | hx'
      · rw [hxy]; exact hy
      · exact ih h x hx'

theorem dropWhile_head_false (p : Char → Bool) (l : Str) :
    ∀ z zr, l.dropWhile p = z :: zr → p z = false := by
  induction l with
  | nil => intro z zr h; exact absurd h (by simp)
  | cons y ys ih =>
    intro z zr h
    cases hy : p y with
    | false =>
      rw [List.dropWhile_cons, if_neg (by simp [hy])] at h
      injection h with h1 h2
      rw [← h1]; exact hy
    | true =>
      rw [List.dropWhile_cons, if_pos hy] at h
      exact ih z zr h

theorem length_dropWhile_le (p : Char → Bool) (l : Str) :
    (l.dropWhile p).length ≤ l.length := by
  induction l with
  | nil => exact Nat.le_refl 0
  | cons x xs ih =>
    cases hx : p x with
    | false => rw [List.dropWhile_cons, if_neg (by simp [hx])]
    | true =>
      rw [List.dropWhile_cons, if_pos hx]
      exact Nat.le_trans ih (by simp)

theorem takeWhile_append_all (p : Char → Bool) (xs : Str) :
    ∀ ys, (∀ x ∈ xs, p x = true) → (xs ++ ys).takeWhile p = xs ++ ys.takeWhile p := by
  induction xs with
  | nil => intro ys _; rfl
  | cons x xs ih =>
    intro ys h
    have hx : p x = true := h x (List.mem_cons_self x xs)
    rw [List.cons_append, List.takeWhile_cons, if_pos hx, List.cons_append]
    rw [ih ys fun a ha => h a (List.mem_cons_of_mem x ha)]

theorem dropWhile_append_all (p : Char → Bool) (xs : Str) :
    ∀ ys, (∀ x ∈ xs, p x = true) → (xs ++ ys).dropWhile p = ys.dropWhile p := by
  induction xs with
  | nil => intro ys _; rfl
  | cons x xs ih =>
    intro ys h
    have hx : p x = true := h x (List.mem_cons_self x xs)
    rw [List.cons_append, List.dropWhile_cons, if_pos hx]
    exact ih ys fun a ha => h a (List.mem_cons_of_mem x ha)

theorem takeWhile_append_dropWhile (p : Char → Bool) (l : Str) :
    l.takeWhile p ++ l.dropWhile p = l := by
  induction l with
  | nil => rfl
  | cons x xs ih =>
    cases hx : p x with
    | false =>
      rw [List.takeWhile_cons, if_neg (by simp [hx]), List.dropWhile_cons,
        if_neg (by simp [hx]), List.nil_append]
    | true =>
      rw [List.takeWhile_cons, if_pos hx, List.dropWhile_cons, if_pos hx,
        List.cons_append, ih]

theorem takeWhile_all_eq (p : Char → Bool) (l : Str) (h : ∀ x ∈ l, p x = true) :
    l.takeWhile p = l := by
  have h2 := takeWhile_append_all p l [] h
  simpa using h2

theorem drop_length_append (xs : Str) :
    ∀ (ys : Str) (n : Nat), (xs ++ ys).drop (xs.length + n) = ys.drop n := by
  induction xs with
  | nil => intro ys n; simp
  | cons x xs ih =>
    intro ys n
    have h1 : (x :: xs).length + n = (xs.length + n) + 1 := by
      rw [List.length_cons]; omega
    rw [h1, List.cons_append, List.drop_succ_cons]
    exact ih ys n

theorem drop_run_length (A tail : Str) (d : Char) :
    (A ++ d :: tail).drop (A.length + 1) = tail := by
  rw [drop_length_append A (d :: tail) 1]
  rfl

/-- One unfolded step of the catch-all scanner at skip counter 0. -/
theorem catchAllGo_cons_eq (prev : Bool) (c : Char) (rest : Str) :
    catchAllGo 0 prev (c :: rest) =
      if !prev && isUpperC c && ((rest.dropWhile isAlnumC).head? == some '(') then
        if (c :: rest.takeWhile isAlnumC) ∈ safeNames then
          (c :: rest.takeWhile isAlnumC) ++ '('
            :: catchAllGo (c :: rest.takeWhile isAlnumC).length false rest
        else
          ("Rack(").data ++ catchAllGo (c :: rest.takeWhile isAlnumC).length false rest
      else c :: catchAllGo 0 (isWordC c) rest := rfl

theorem catchAllGo_cons_neg {prev : Bool} {c : Char} {rest : Str}
    (h : (!prev && isUpperC c && ((rest.dropWhile isAlnumC).head? == some '(')) = false) :
    catchAllGo 0 prev (c :: rest) = c :: catchAllGo 0 (isWordC c) rest := by
  rw [catchAllGo_cons_eq, if_neg (by simp [h])]

theorem catchAllGo_cons_pos {prev : Bool} {c : Char} {rest : Str}
    (h : (!prev && isUpperC c && ((rest.dropWhile isAlnumC).head? == some '(')) = true) :
    catchAllGo 0 prev (c :: rest) =
      if (c :: rest.takeWhile isAlnumC) ∈ safeNames then
        (c :: rest.takeWhile isAlnumC) ++ '('
          :: catchAllGo (c :: rest.takeWhile isAlnumC).length false rest
      else
        ("Rack(").data ++ catchAllGo (c :: rest.takeWhile isAlnumC).length false rest := by
  rw [catchAllGo_cons_eq, if_pos h]

/-- Eliminating the skip counter: consuming `k` characters. -/
theorem catchAllGo_skip : ∀ (k : Nat) (prev : Bool) (s : Str),
    catchAllGo k prev s = catchAllGo 0 prev (s.drop k) := by
  intro k
  induction k with
  | zero => intro prev s; rfl
  | succ n ih =>
    intro prev s
    cases s with
    | nil => rfl
    | cons c rest =>
      show catchAllGo n prev rest = catchAllGo 0 prev ((c :: rest).drop (n + 1))
      rw [List.drop_succ_cons]
      exact ih prev rest

/-- One unfolded step of the claim-side alphanumeric-call scanner. -/
theorem hasBadAlnumCall_cons_eq (prev : Bool) (c : Char) (rest : Str) :
    hasBadAlnumCall prev (c :: rest) =
      if !prev && isUpperC c && ((rest.dropWhile isAlnumC).head? == some '(')
          && !(decide ((c :: rest.takeWhile isAlnumC) ∈ safeNames)) then true
      else hasBadAlnumCall (isWordC c) rest := rfl

theorem hasBadAlnumCall_cons_neg {prev : Bool} {c : Char} {rest : Str}
    (h : (!prev && isUpperC c && ((rest.dropWhile isAlnumC).head? == some '(')
          && !(decide ((c :: rest.takeWhile isAlnumC) ∈ safeNames))) = false) :
    hasBadAlnumCall prev (c :: rest) = hasBadAlnumCall (isWordC c) rest := by
  rw [hasBadAlnumCall_cons_eq, if_neg (by simp [h])]

/-- Walking over word characters with the boundary flag already set finds
nothing new: no match can start inside a word run. -/
theorem hasBadAlnumCall_walk :
    ∀ (w : Str), (∀ x ∈ w, isWordC x = true) →
      ∀ t, hasBadAlnumCall true (w ++ t) = hasBadAlnumCall true t := by
  intro w
  induction w with
  | nil => intro _ t; rfl
  | cons x xs ih =>
    intro hw t
    have hx : isWordC x = true := hw x (List.mem_cons_self x xs)
    rw [List.cons_append, hasBadAlnumCall_cons_neg (by simp), hx]
    exact ih (fun a ha => hw a (List.mem_cons_of_mem x ha)) t

/-- With the previous character a word character, the scan copies the
current maximal word run verbatim and resumes with a cleared flag after
the first non-word character. -/
theorem catchAllGo_true_split : ∀ s : Str,
    catchAllGo 0 true s = s.takeWhile isWordC ++
      (match s.dropWhile isWordC with
       | [] => ([] : Str)
       | z :: zr => z :: catchAllGo 0 false zr) := by
  intro s
  induction s with
  | nil => rfl
  | cons c rest ih =>
    rw [catchAllGo_cons_neg (by simp)]
    cases hc : isWordC c with
    | true =>
      rw [ih]
      simp [List.takeWhile_cons, List.dropWhile_cons, hc]
    | false =>
      simp [List.takeWhile_cons, List.dropWhile_cons, hc]

theorem catchAllGo_true_of_dropWhile_nil (s : Str) (h : s.dropWhile isWordC = []) :
    catchAllGo 0 true s = s := by
  rw [catchAllGo_true_split s, h,
    takeWhile_all_eq isWordC s (all_of_dropWhile_nil isWordC s h)]
  simp

theorem catchAllGo_true_of_dropWhile_cons (s : Str) (z : Char) (zr : Str)
    (h : s.dropWhile isWordC = z :: zr) :
    catchAllGo 0 true s = s.takeWhile isWordC ++ z :: catchAllGo 0 false zr := by
  rw [catchAllGo_true_split s, h]

/-- Main invariant: the catch-all scan never leaves a capitalized maximal
alphanumeric call token outside the safe-list in its output. -/
theorem catchAll_no_bad :
    ∀ (n : Nat) (s : Str), s.length ≤ n →
      ∀ prev, hasBadAlnumCall prev (catchAllGo 0 prev s) = false := by
  intro n
  induction n with
  | zero =>
    intro s hlen prev
    have hs : s = [] := List.eq_nil_of_length_eq_zero (Nat.le_zero.mp hlen)
    subst hs
    rfl
  | succ n ih =>
    intro s hlen prev
    cases s with
    | nil => rfl
    | cons c rest =>
      have hrest : rest.length ≤ n := by
        simp only [List.length_cons] at hlen
        omega
      by_cases hstart : (!prev && isUpperC c) = true
      case neg =>
        have hstart' := bool_not_true hstart
        rw [catchAllGo_cons_neg (by simp [hstart'])]
        rw [hasBadAlnumCall_cons_neg (by simp [hstart'])]
        exact ih rest hrest (isWordC c)
      case pos =>
        rw [Bool.and_eq_true] at hstart
        obtain ⟨hnp, hup⟩ := hstart
        have hprev : prev = false := by
          cases prev
          · rfl
          · simp at hnp
        subst hprev
        have hwc : isWordC c = true := upper_word hup
        by_cases hpar : ((rest.dropWhile isAlnumC).head? == some '(') = true
        case pos =>
          rcases hD : rest.dropWhile isAlnumC with _ | ⟨d, dr⟩
          · rw [hD] at hpar
            exact absurd hpar (by decide)
          · have hd : d = '(' := by
              rw [hD, List.head?_cons] at hpar
              have h2 := eq_of_beq hpar
              injection h2
            subst hd
            obtain ⟨A, hA⟩ : ∃ A, A = rest.takeWhile isAlnumC := ⟨_, rfl⟩
            have hAall : ∀ x ∈ A, isAlnumC x = true := by
              rw [hA]; exact mem_takeWhile_all isAlnumC rest
            have hresteq : rest = A ++ '(' :: dr := by
              rw [hA, ← hD]
              exact (takeWhile_append_dropWhile isAlnumC rest).symm
            have hdrlen : dr.length ≤ n := by
              have h2 := congrArg List.length hresteq
              simp only [List.length_append, List.length_cons] at h2
              omega
            rw [catchAllGo_cons_pos (by simp [hup, hD])]
            rw [← hA]
            have hdrop : rest.drop ((c :: A).length) = dr := by
              rw [List.length_cons]
              conv_lhs => rw [hresteq]
              exact drop_run_length A dr '('
            have hskip : catchAllGo (c :: A).length false rest = catchAllGo 0 false dr := by
              rw [catchAllGo_skip, hdrop]
            rw [hskip]
            have hY := ih dr hdrlen false
            by_cases hsafe : (c :: A) ∈ safeNames
            case pos =>
              rw [if_pos hsafe]
              have htw : (A ++ '(' :: catchAllGo 0 false dr).takeWhile isAlnumC = A := by
                rw [takeWhile_append_all isAlnumC A _ hAall]
                simp [List.takeWhile_cons, alnum_lparen]
              have hdw : (A ++ '(' :: catchAllGo 0 false dr).dropWhile isAlnumC
                  = '(' :: catchAllGo 0 false dr := by
                rw [dropWhile_append_all isAlnumC A _ hAall]
                rw [List.dropWhile_cons, if_neg (by simp [alnum_lparen])]
              rw [List.cons_append]
              rw [hasBadAlnumCall_cons_neg (by rw [htw, hdw]; simp [hsafe])]
              rw [hwc]
              rw [hasBadAlnumCall_walk A (fun x hx => alnum_word (hAall x hx))]
              rw [hasBadAlnumCall_cons_neg (by simp)]
              rw [word_lparen]
              exact hY
            case neg =>
              rw [if_neg hsafe]
              have hrk : ("Rack(").data ++ catchAllGo 0 false dr
                  = 'R' :: 'a' :: 'c' :: 'k' :: '(' :: catchAllGo 0 false dr := rfl
              rw [hrk]
              have htw2 : ('a' :: 'c' :: 'k' :: '(' :: catchAllGo 0 false dr).takeWhile isAlnumC
                  = ['a', 'c', 'k'] := by
                simp +decide [List.takeWhile_cons]
              have hdw2 : ('a' :: 'c' :: 'k' :: '(' :: catchAllGo 0 false dr).dropWhile isAlnumC
                  = '(' :: catchAllGo 0 false dr := by
                simp +decide [List.dropWhile_cons]
              rw [hasBadAlnumCall_cons_neg (by rw [htw2, hdw2]; simp +decide)]
              rw [show isWordC 'R' = true from by decide]
              rw [show ('a' :: 'c' :: 'k' :: '(' :: catchAllGo 0 false dr)
                    = ['a', 'c', 'k'] ++ '(' :: catchAllGo 0 false dr from rfl]
              rw [hasBadAlnumCall_walk ['a', 'c', 'k'] (by decide)]
              rw [hasBadAlnumCall_cons_neg (by simp)]
              rw [word_lparen]
              exact hY
        case neg =>
          have hpar' := bool_not_true hpar
          rw [catchAllGo_cons_neg (by simp [hpar'])]
          rw [hwc]
          rcases hDW : rest.dropWhile isWordC with _ | ⟨z, zr⟩
          · have hall := all_of_dropWhile_nil isWordC rest hDW
            rw [catchAllGo_true_of_dropWhile_nil rest hDW]
            rw [hasBadAlnumCall_cons_neg (by simp [hpar'])]
            rw [hwc]
            have h2 := hasBadAlnumCall_walk rest hall []
            rw [List.append_nil] at h2
            rw [h2]
            rfl
          · have hz : isWordC z = false := dropWhile_head_false isWordC rest z zr hDW
            have hzrlen : zr.length ≤ n := by
              have h2 := length_dropWhile_le isWordC rest
              rw [hDW] at h2
              simp only [List.length_cons] at h2
              omega
            rw [catchAllGo_true_of_dropWhile_cons rest z zr hDW]
            rcases hD : rest.dropWhile isAlnumC with _ | ⟨d, dcr⟩
            · have hallA := all_of_dropWhile_nil isAlnumC rest hD
              have hnil : rest.dropWhile isWordC = [] := by
                have h2 := dropWhile_append_all isWordC rest []
                  (fun x hx => alnum_word (hallA x hx))
                simpa using h2
              rw [hnil] at hDW
              exact absurd hDW (by simp)
            · have hd2 : isAlnumC d = false := dropWhile_head_false isAlnumC rest d dcr hD
              have hdbeq : (some d == some '(') = false := by
                rw [hD, List.head?_cons] at hpar'
                exact hpar'
              have hresteq : rest = rest.takeWhile isAlnumC ++ d :: dcr := by
                rw [← hD]
                exact (takeWhile_append_dropWhile isAlnumC rest).symm
              obtain ⟨A, hA⟩ : ∃ A, A = rest.takeWhile isAlnumC := ⟨_, rfl⟩
              rw [← hA] at hresteq
              have hAall : ∀ x ∈ A, isAlnumC x = true := by
                rw [hA]; exact mem_takeWhile_all isAlnumC rest
              by_cases hdw : isWordC d = true
              case pos =>
                have hW : rest.takeWhile isWordC = A ++ d :: dcr.takeWhile isWordC := by
                  conv_lhs => rw [hresteq]
                  rw [takeWhile_append_all isWordC A _ (fun x hx => alnum_word (hAall x hx))]
                  rw [List.takeWhile_cons, if_pos hdw]
                rw [hW, List.append_assoc, List.cons_append]
                have hdwx : ((A ++ d :: (dcr.takeWhile isWordC ++ z :: catchAllGo 0 false zr)).dropWhile isAlnumC)
                    = d :: (dcr.takeWhile isWordC ++ z :: catchAllGo 0 false zr) := by
                  rw [dropWhile_append_all isAlnumC A _ hAall]
                  rw [List.dropWhile_cons, if_neg (by simp [hd2])]
                rw [hasBadAlnumCall_cons_neg
                  (by rw [hdwx, List.head?_cons, hdbeq]; simp)]
                rw [hwc]
                rw [hasBadAlnumCall_walk A (fun x hx => alnum_word (hAall x hx))]
                rw [hasBadAlnumCall_cons_neg (by simp)]
                rw [hdw]
                rw [hasBadAlnumCall_walk (dcr.takeWhile isWordC) (mem_takeWhile_all isWordC dcr)]
                rw [hasBadAlnumCall_cons_neg (by simp)]
                rw [hz]
                exact ih zr hzrlen false
              case neg =>
                have hdw' := bool_not_true hdw
                have hW : rest.takeWhile isWordC = A := by
                  conv_lhs => rw [hresteq]
                  rw [takeWhile_append_all isWordC A _ (fun x hx => alnum_word (hAall x hx))]
                  rw [List.takeWhile_cons, if_neg (by simp [hdw']), List.append_nil]
                have hZ : rest.dropWhile isWordC = d :: dcr := by
                  conv_lhs => rw [hresteq]
                  rw [dropWhile_append_all isWordC A _ (fun x hx => alnum_word (hAall x hx))]
                  rw [List.dropWhile_cons, if_neg (by simp [hdw'])]
                rw [hDW] at hZ
                injection hZ with hzd hzr
                subst hzd
                subst hzr
                rw [hW]
                have hdwx : ((A ++ z :: catchAllGo 0 false zr).dropWhile isAlnumC)
                    = z :: catchAllGo 0 false zr := by
                  rw [dropWhile_append_all isAlnumC A _ hAall]
                  rw [List.dropWhile_cons, if_neg (by simp [hd2])]
                rw [hasBadAlnumCall_cons_neg
                  (by rw [hdwx, List.head?_cons, hdbeq]; simp)]
                rw [hwc]
                rw [hasBadAlnumCall_walk A (fun x hx => alnum_word (hAall x hx))]
                rw [hasBadAlnumCall_cons_neg (by simp)]
                rw [hz]
                exact ih zr hzrlen false

/-- **C4** (counterexample).  The claim promises that no capitalized
call-like token outside the safe-list survives the repair pass, but a
capitalized identifier containing an underscore is untouched:
`Db_Store('x')` passes through `_fix_invalid_service_names` unchanged even
though it contains the capitalized call token `Db_Store(`, which is not in
the safe-list.  The underscore is a word character outside the regex's
quantified class `[a-zA-Z0-9]`, so neither `Db` (not followed by `(`) nor
`Store` (no `\b` boundary after `_`) can match. -/
theorem claim_C4_counterexample :
    fixInvalidServiceNames (("Db_Store('x')").data) = ("Db_Store('x')").data ∧
    hasBadIdentCall false (fixInvalidServiceNames (("Db_Store('x')").data)) = true := by
  constructor
  · decide
  · decide

/-- **C4** (amended).  The catch-all guarantee holds exactly for the token
shape its regex `\b([A-Z][a-zA-Z0-9]*)\(` recognises: for every input, the
output of `_fix_invalid_service_names` contains no call-like token whose
name is a maximal alphanumeric run starting with a capital letter at a
word boundary, directly followed by `(`, and outside the safe-list
`Diagram, Cluster, Edge, Users, Internet, Rack` — in particular the
canonical names produced by the alias table itself are subsequently
replaced by `Rack(`.  Capitalized call tokens containing underscores are
not covered (see the counterexample). -/
theorem claim_C4 (code : Str) :
    hasBadAlnumCall false (fixInvalidServiceNames code) = false := by
  unfold fixInvalidServiceNames
  generalize serviceNameReplacements.foldl (fun s pr => replaceAll pr.1 pr.2 s) code = t
  exact catchAll_no_bad t.length t (Nat.le_refl _) false

/-!
## Claim C7: marker handling of the blueprint compiler

`---BEGIN_BLUEPRINT---` contains `BEGIN_BLUEPRINT`, so with the fallback
search the start marker is missing exactly when the bare spelling is
missing; the error message names the start marker.  When the end marker is
missing the effective end index is the text length, which makes the body
the whole remainder after the begin marker.
-/

theorem isPrefixOf_append_self : ∀ (p t : Str), p.isPrefixOf (p ++ t) = true := by
  intro p
  induction p with
  | nil => intro t; cases t <;> rfl
  | cons x xs ih =>
    intro t
    show (x == x && xs.isPrefixOf (xs ++ t)) = true
    rw [ih t]
    simp

theorem append_of_isPrefixOf : ∀ (p t : Str), p.isPrefixOf t = true → ∃ r, t = p ++ r := by
  intro p
  induction p with
  | nil => intro t _; exact ⟨t, rfl⟩
  | cons x xs ih =>
    intro t h
    cases t with
    | nil => exact Bool.noConfusion h
    | cons y ys =>
      have h2 : (x == y && xs.isPrefixOf ys) = true := h
      rw [Bool.and_eq_true] at h2
      obtain ⟨hxy, hps⟩ := h2
      obtain ⟨r, hr⟩ := ih ys hps
      refine ⟨r, ?_⟩
      rw [List.cons_append, ← hr, eq_of_beq hxy]

theorem isPrefixOf_of_findSub (pat : Str) : ∀ (s : Str) (i : Nat),
    findSub pat s = some i → pat.isPrefixOf (s.drop i) = true := by
  intro s
  induction s with
  | nil => intro i h; exact Option.noConfusion h
  | cons c rest ih =>
    intro i h
    simp only [findSub] at h
    cases hpre : pat.isPrefixOf (c :: rest) with
    | true =>
      rw [if_pos hpre] at h
      injection h with h'
      rw [← h']
      exact hpre
    | false =>
      rw [if_neg (by simp [hpre])] at h
      cases hf : findSub pat rest with
      | none => rw [hf] at h; exact Option.noConfusion h
      | some j =>
        rw [hf] at h
        simp at h
        rw [← h, List.drop_succ_cons]
        exact ih j hf

theorem containsSub_of_prefixAt (pat : Str) (hne : pat ≠ []) : ∀ (s : Str) (k : Nat),
    pat.isPrefixOf (s.drop k) = true → containsSub pat s = true := by
  intro s
  induction s with
  | nil =>
    intro k h
    rw [List.drop_nil] at h
    cases pat with
    | nil => exact absurd rfl hne
    | cons p pr => exact Bool.noConfusion h
  | cons c rest ih =>
    intro k h
    unfold containsSub
    simp only [findSub]
    cases hpre : pat.isPrefixOf (c :: rest) with
    | false =>
      rw [if_neg (by simp)]
      cases k with
      | zero =>
        rw [List.drop_zero] at h
        rw [h] at hpre
        exact Bool.noConfusion hpre
      | succ k2 =>
        rw [List.drop_succ_cons] at h
        have ihc := ih k2 h
        unfold containsSub at ihc
        cases hf : findSub pat rest with
        | none => rw [hf] at ihc; exact Bool.noConfusion ihc
        | some j => rfl
    | true => rfl

/-- A slice ending at the text length is the drop. -/
theorem slice_to_length (a : Nat) (s : Str) : slice a s.length s = s.drop a := by
  unfold slice
  have h : (s.drop a).length ≤ s.length - a := by
    rw [List.length_drop]
  exact List.take_of_length_le h

/-- **C7** (confirmed).  Blueprint compilation fails, with the error naming
the missing start marker, exactly when no spelling of the begin marker
occurs in the text (the bare `BEGIN_BLUEPRINT` is a substring of
`---BEGIN_BLUEPRINT---`, so its absence is the precise condition); and when
the end marker is missing the compiler behaves exactly like the
truncation-tolerant extraction that takes the whole remainder after the
begin marker as the body, so compilation does not fail. -/
theorem claim_C7 (text : Str) :
    (containsSub beginMarkerAlt text = false →
      parseBlueprintText text = .error "Blueprint start marker not found in response") ∧
    (containsSub beginMarkerAlt text = true →
      ∃ b, parseBlueprintText text = .ok b) ∧
    (findSub endMarker text = none →
      extractContent text = extractContentTruncated text) := by
  refine ⟨?_, ?_, ?_⟩
  · intro hc
    have halt : findSub beginMarkerAlt text = none := by
      cases h : findSub beginMarkerAlt text with
      | none => rfl
      | some x =>
        unfold containsSub at hc
        rw [h] at hc
        exact absurd hc (by simp)
    have hfull : findSub beginMarker text = none := by
      cases h : findSub beginMarker text with
      | none => rfl
      | some i =>
        have hpre := isPrefixOf_of_findSub beginMarker text i h
        obtain ⟨r, hr⟩ := append_of_isPrefixOf beginMarker (text.drop i) hpre
        have hcontains : containsSub beginMarkerAlt text = true := by
          apply containsSub_of_prefixAt beginMarkerAlt (by decide) text (i + 3)
          have hdrop : text.drop (i + 3) = (text.drop i).drop 3 := by
            rw [List.drop_drop]
          rw [hdrop, hr]
          have h3 : (beginMarker ++ r).drop 3
              = beginMarkerAlt ++ (("---").data ++ r) := rfl
          rw [h3]
          exact isPrefixOf_append_self beginMarkerAlt _
        rw [hcontains] at hc
        exact Bool.noConfusion hc
    have hex : extractContent text = .error "Blueprint start marker not found in response" := by
      unfold extractContent
      rw [hfull, halt]
      rfl
    unfold parseBlueprintText
    rw [hex]
  · intro hc
    have hex : ∃ content, extractContent text = .ok content := by
      cases hr : extractContent text with
      | ok c => exact ⟨c, rfl⟩
      | error e =>
        exfalso
        cases h0 : findSub beginMarker text with
        | some i =>
          unfold extractContent at hr
          rw [h0] at hr
          exact Except.noConfusion hr
        | none =>
          have halt : ∃ j, findSub beginMarkerAlt text = some j := by
            unfold containsSub at hc
            cases h : findSub beginMarkerAlt text with
            | none => rw [h] at hc; exact Bool.noConfusion hc
            | some j => exact ⟨j, rfl⟩
          obtain ⟨j, hj⟩ := halt
          unfold extractContent at hr
          rw [h0, hj] at hr
          exact Except.noConfusion hr
    obtain ⟨content, hcontent⟩ := hex
    refine ⟨parseLinesGo 0 (splitOnChar '\n' content) none defaultBlueprint, ?_⟩
    unfold parseBlueprintText
    rw [hcontent]
  · intro hend
    unfold extractContent extractContentTruncated
    rw [hend]
    cases h0 : findSub beginMarker text with
    | none =>
      cases ha : findSub beginMarkerAlt text with
      | none => rfl
      | some j => simp [slice_to_length]
    | some i => simp [slice_to_length]

/-- **C7** witness: a text with no marker fails with the named error; a
complete blueprint text compiles; a truncated text (begin marker present,
end marker missing) extracts the remainder of the text as the body. -/
theorem claim_C7_witness :
    parseBlueprintText (("no markers here").data)
        = .error "Blueprint start marker not found in response" ∧
    (∃ b, parseBlueprintText
        (("---BEGIN_BLUEPRINT---\nTitle: T\n---END_BLUEPRINT---\n").data) = .ok b) ∧
    extractContent (("---BEGIN_BLUEPRINT---\nTitle: T").data)
      = extractContentTruncated (("---BEGIN_BLUEPRINT---\nTitle: T").data) :=
  ⟨(claim_C7 (("no markers here").data)).1 (by decide),
   (claim_C7 (("---BEGIN_BLUEPRINT---\nTitle: T\n---END_BLUEPRINT---\n").data)).2.1 (by decide),
   (claim_C7 (("---BEGIN_BLUEPRINT---\nTitle: T").data)).2.2 (by decide)⟩

/-!
## Claim C3: the format/compile round trip

`__str__` writes node lines as `- name as var (Type: t)` and cluster lines
as `- name contains a, b`, while `_parse_blueprint_text` only accepts
`|`-separated node bullets with `ID:`/`Type:` fields and `Cluster:`/
`Members:` blocks — so nodes and clusters never survive the round trip.
Relationship lines `- src >> dst` are exactly the parser's grammar and do
survive.
-/

theorem nlTerminated_map {α : Type} (f : α → Str) (g : α → Str)
    (hfg : ∀ a, f a ++ [ '\n' ] = g a) :
    ∀ xs : List α, nlTerminated (xs.map f) = (xs.map g).flatten := by
  intro xs
  induction xs with
  | nil => rfl
  | cons x xs ih =>
    show (f x ++ [ '\n' ]) ++ nlTerminated (xs.map f) = g x ++ (xs.map g).flatten
    rw [hfg, ih]

theorem nlTerminated_nil : nlTerminated [] = [] := rfl

theorem nlTerminated_cons (l : Str) (ls : List Str) :
    nlTerminated (l :: ls) = (l ++ [ '\n' ]) ++ nlTerminated ls := rfl

theorem nlTerminated_append : ∀ xs ys : List Str,
    nlTerminated (xs ++ ys) = nlTerminated xs ++ nlTerminated ys := by
  intro xs ys
  induction xs with
  | nil => rfl
  | cons x xs ih =>
    rw [List.cons_append, nlTerminated_cons, nlTerminated_cons, ih]
    simp [List.append_assoc]

theorem nodeLine_formatted (n : BNode) : nodeLineCore n ++ [ '\n' ] = formatNodeLine n := by
  unfold nodeLineCore formatNodeLine
  have hl : (")\n").data = [ ')' ] ++ [ '\n' ] := rfl
  rw [hl]
  simp [List.append_assoc]

theorem clusterLine_formatted (c : BCluster) :
    clusterLineCore c ++ [ '\n' ] = formatClusterLine c := by
  unfold clusterLineCore formatClusterLine
  simp [List.append_assoc]

theorem relLine_formatted (r : BRel) : relLineCore r ++ [ '\n' ] = formatRelLine r := by
  unfold relLineCore formatRelLine
  simp [List.append_assoc]

/-- The formatted blueprint is the begin-marker line, the newline-terminated
body lines, and the end-marker line. -/
theorem formatBlueprint_shape (b : ArchitectureBlueprint) :
    formatBlueprint b
      = beginMarker ++ '\n' :: (nlTerminated (bodyLines b) ++ (endMarker ++ [ '\n' ])) := by
  have h1 : ("---BEGIN_BLUEPRINT---\n").data = beginMarker ++ [ '\n' ] := rfl
  have h2 : ("\n\n").data = [ '\n' ] ++ [ '\n' ] := rfl
  have h3 : ("Nodes:\n").data = ("Nodes:").data ++ [ '\n' ] := rfl
  have h4 : ("\nClusters:\n").data = [ '\n' ] ++ (("Clusters:").data ++ [ '\n' ]) := rfl
  have h5 : ("\nRelationships:\n").data = [ '\n' ] ++ (("Relationships:").data ++ [ '\n' ]) := rfl
  have h6 : ("---END_BLUEPRINT---\n").data = endMarker ++ [ '\n' ] := rfl
  have hn := nlTerminated_map nodeLineCore formatNodeLine nodeLine_formatted b.nodes
  have hc := nlTerminated_map clusterLineCore formatClusterLine clusterLine_formatted b.clusters
  have hr := nlTerminated_map relLineCore formatRelLine relLine_formatted b.relationships
  unfold formatBlueprint bodyLines
  rw [h1, h2, h3, h4, h5, h6]
  cases hce : b.clusters.isEmpty with
  | true =>
    simp only [hce, if_true, List.nil_append, List.append_nil]
    simp [nlTerminated_append, nlTerminated_cons, nlTerminated_nil, hn, hc, hr,
      titleLine, descrLine, List.append_assoc]
  | false =>
    simp only [hce]
    simp [nlTerminated_append, nlTerminated_cons, nlTerminated_nil, hn, hc, hr,
      titleLine, descrLine, List.append_assoc]

theorem findSub_zero_of_prefix (pat s : Str) (hne : pat ≠ [])
    (h : pat.isPrefixOf s = true) : findSub pat s = some 0 := by
  cases s with
  | nil =>
    cases pat with
    | nil => exact absurd rfl hne
    | cons p pr => exact Bool.noConfusion h
  | cons c rest =>
    simp only [findSub]
    rw [if_pos h]

theorem take_append_length (xs : Str) :
    ∀ (ys : Str) (n : Nat), (xs ++ ys).take (xs.length + n) = xs ++ ys.take n := by
  induction xs with
  | nil => intro ys n; simp
  | cons x xs ih =>
    intro ys n
    have h1 : (x :: xs).length + n = (xs.length + n) + 1 := by
      rw [List.length_cons]; omega
    rw [h1, List.cons_append, List.take_succ_cons, ih, List.cons_append]

theorem stripL_cons_ws {c : Char} (h : pyWs c = true) (s : Str) :
    stripL (c :: s) = stripL s := by
  unfold stripL
  rw [List.dropWhile_cons, if_pos h]

theorem stripL_cons_nonws {c : Char} (h : pyWs c = false) (s : Str) :
    stripL (c :: s) = c :: s := by
  unfold stripL
  rw [List.dropWhile_cons, if_neg (by simp [h])]

theorem stripR_append_ws {c : Char} (h : pyWs c = true) (s : Str) :
    stripR (s ++ [c]) = stripR s := by
  unfold stripR
  rw [List.reverse_append]
  show ((c :: s.reverse).dropWhile pyWs).reverse = (s.reverse.dropWhile pyWs).reverse
  rw [List.dropWhile_cons, if_pos h]

theorem dropWhile_fix_head (p : Char → Bool) (c : Char) (t : Str)
    (h : (c :: t).dropWhile p = c :: t) : p c = false := by
  cases hp : p c with
  | false => rfl
  | true =>
    rw [List.dropWhile_cons, if_pos hp] at h
    have hle := length_dropWhile_le p t
    rw [h] at hle
    simp only [List.length_cons] at hle
    omega

theorem stripR_append_of_keep (y : Str) (hk : stripR y = y) (hny : y ≠ []) :
    ∀ x : Str, stripR (x ++ y) = x ++ y := by
  intro x
  have hrev : y.reverse.dropWhile pyWs = y.reverse := by
    have h2 := congrArg List.reverse hk
    unfold stripR at h2
    rw [List.reverse_reverse] at h2
    exact h2
  cases hyr : y.reverse with
  | nil =>
    have : y = [] := by
      have := congrArg List.reverse hyr
      rw [List.reverse_reverse] at this
      simpa using this
    exact absurd this hny
  | cons c t =>
    have hc : pyWs c = false := by
      rw [hyr] at hrev
      exact dropWhile_fix_head pyWs c t hrev
    unfold stripR
    rw [List.reverse_append, hyr, List.cons_append, List.dropWhile_cons,
      if_neg (by simp [hc]), ← List.cons_append, ← hyr, List.reverse_append,
      List.reverse_reverse, List.reverse_reverse]

theorem stripL_title (Z : Str) :
    stripL ((("Title: ").data) ++ Z) = (("Title: ").data) ++ Z := by
  have h : (("Title: ").data) ++ Z = 'T' :: ((("itle: ").data) ++ Z) := rfl
  rw [h, stripL_cons_nonws (by decide)]

theorem nlTerminated_eq_joinSep : ∀ ls : List Str, ls ≠ [] →
    nlTerminated ls = joinSep [ '\n' ] ls ++ [ '\n' ] := by
  intro ls
  induction ls with
  | nil => intro h; exact absurd rfl h
  | cons l ls ih =>
    intro _
    cases ls with
    | nil =>
      show (l ++ [ '\n' ]) ++ nlTerminated [] = joinSep [ '\n' ] [l] ++ [ '\n' ]
      simp [nlTerminated, joinSep]
    | cons l2 ls2 =>
      rw [nlTerminated_cons, ih (by simp)]
      show (l ++ [ '\n' ]) ++ (joinSep [ '\n' ] (l2 :: ls2) ++ [ '\n' ])
          = (l ++ [ '\n' ] ++ joinSep [ '\n' ] (l2 :: ls2)) ++ [ '\n' ]
      simp [List.append_assoc]

/-- Extraction of the formatted blueprint: when the end marker first occurs
at its intended final position and the joined body has no trailing
whitespace, the extracted content is the newline-join of the body lines. -/
theorem extract_format (b : ArchitectureBlueprint)
    (hend : findSub endMarker (formatBlueprint b)
      = some ((formatBlueprint b).length - 20))
    (hkeep : stripR (joinSep [ '\n' ] (bodyLines b)) = joinSep [ '\n' ] (bodyLines b)) :
    extractContent (formatBlueprint b) = .ok (joinSep [ '\n' ] (bodyLines b)) := by
  have hshape := formatBlueprint_shape b
  have hpre : beginMarker.isPrefixOf (formatBlueprint b) = true := by
    rw [hshape]
    exact isPrefixOf_append_self _ _
  have h0 : findSub beginMarker (formatBlueprint b) = some 0 :=
    findSub_zero_of_prefix _ _ (by decide) hpre
  have hml : containsSub beginMarker (slice (0 - 10) (0 + 30) (formatBlueprint b)) = true := by
    have hsl : slice (0 - 10) (0 + 30) (formatBlueprint b) = (formatBlueprint b).take 30 := rfl
    rw [hsl, hshape]
    have h30 : (30 : Nat) = beginMarker.length + 9 := by decide
    rw [h30, take_append_length]
    exact containsSub_of_prefixAt beginMarker (by decide) _ 0 (isPrefixOf_append_self _ _)
  have hlenf : (formatBlueprint b).length = 42 + (nlTerminated (bodyLines b)).length := by
    rw [hshape]
    have hbl : beginMarker.length = 21 := by decide
    have hel : endMarker.length = 19 := by decide
    simp only [List.length_append, List.length_cons, List.length_nil, hbl, hel]
    omega
  have hsl2 : slice 21 ((formatBlueprint b).length - 20) (formatBlueprint b)
      = '\n' :: nlTerminated (bodyLines b) := by
    unfold slice
    rw [hlenf, hshape]
    have hd : (beginMarker ++ '\n' :: (nlTerminated (bodyLines b) ++ (endMarker ++ [ '\n' ]))).drop 21
        = '\n' :: (nlTerminated (bodyLines b) ++ (endMarker ++ [ '\n' ])) := by
      have h21 : (21 : Nat) = beginMarker.length + 0 := by decide
      rw [h21, drop_length_append]
      exact List.drop_zero _
    rw [hd]
    have harith : 42 + (nlTerminated (bodyLines b)).length - 20 - 21
        = (nlTerminated (bodyLines b)).length + 1 := by omega
    rw [harith, List.take_succ_cons, List.take_left]
  have hne : bodyLines b ≠ [] := by
    intro h
    exact List.noConfusion h
  have hstr : pyStrip ('\n' :: nlTerminated (bodyLines b)) = joinSep [ '\n' ] (bodyLines b) := by
    have hconsT : bodyLines b = titleLine b :: (bodyLines b).tail := rfl
    have hW : nlTerminated (bodyLines b)
        = (("Title: ").data) ++ (b.title ++ ([ '\n' ] ++ nlTerminated ((bodyLines b).tail))) := by
      conv_lhs => rw [hconsT]
      rw [nlTerminated_cons]
      unfold titleLine
      simp [List.append_assoc]
    unfold pyStrip
    rw [stripL_cons_ws (by decide)]
    rw [hW, stripL_title, ← hW]
    rw [nlTerminated_eq_joinSep (bodyLines b) hne]
    rw [stripR_append_ws (by decide)]
    exact hkeep
  unfold extractContent
  rw [h0, hend]
  simp only [Option.isNone_some, Option.isSome_some, Bool.false_eq_true, Bool.true_and,
    Bool.and_false, if_false, Nat.zero_add, hml, eq_self_iff_true, if_true]
  rw [hsl2, hstr]

theorem splitOnChar_no_sep (sep : Char) : ∀ xs : Str, ¬ sep ∈ xs →
    splitOnChar sep xs = [xs] := by
  intro xs
  induction xs with
  | nil => intro _; rfl
  | cons c rest ih =>
    intro h
    have hc : ¬ c = sep := fun he => h (by rw [← he]; exact List.mem_cons_self _ _)
    simp only [splitOnChar]
    rw [if_neg hc, ih (fun hm => h (List.mem_cons_of_mem c hm))]

theorem splitOnChar_append_sep (sep : Char) : ∀ xs ys : Str, ¬ sep ∈ xs →
    splitOnChar sep (xs ++ sep :: ys) = xs :: splitOnChar sep ys := by
  intro xs
  induction xs with
  | nil =>
    intro ys _
    show splitOnChar sep (sep :: ys) = [] :: splitOnChar sep ys
    simp [splitOnChar]
  | cons c rest ih =>
    intro ys h
    have hc : ¬ c = sep := fun he => h (by rw [← he]; exact List.mem_cons_self _ _)
    rw [List.cons_append]
    simp only [splitOnChar]
    rw [if_neg hc, ih ys (fun hm => h (List.mem_cons_of_mem c hm))]

theorem splitOnChar_joinSep (sep : Char) : ∀ ls : List Str,
    (∀ l ∈ ls, ¬ sep ∈ l) → ls ≠ [] →
    splitOnChar sep (joinSep [sep] ls) = ls := by
  intro ls
  induction ls with
  | nil => intro _ h; exact absurd rfl h
  | cons l ls ih =>
    intro h _
    cases ls with
    | nil => exact splitOnChar_no_sep sep l (h l (List.mem_cons_self _ _))
    | cons l2 ls2 =>
      show splitOnChar sep ((l ++ [sep]) ++ joinSep [sep] (l2 :: ls2)) = l :: (l2 :: ls2)
      rw [List.append_assoc, List.singleton_append]
      rw [splitOnChar_append_sep sep l _ (h l (List.mem_cons_self _ _))]
      rw [ih (fun a ha => h a (List.mem_cons_of_mem _ ha)) (by simp)]

theorem dropWhile_append_cases (p : Char → Bool) : ∀ xs ys : Str,
    (xs ++ ys).dropWhile p
      = if (xs.dropWhile p).isEmpty then ys.dropWhile p else xs.dropWhile p ++ ys := by
  intro xs ys
  induction xs with
  | nil => simp
  | cons x xs ih =>
    cases hx : p x with
    | true =>
      rw [List.cons_append, List.dropWhile_cons, if_pos hx, ih,
        List.dropWhile_cons, if_pos hx]
    | false =>
      have hd : (x :: xs).dropWhile p = x :: xs := by
        rw [List.dropWhile_cons, if_neg (by simp [hx])]
      rw [List.cons_append, List.dropWhile_cons, if_neg (by simp [hx]), hd]
      rw [if_neg (by simp), List.cons_append]

theorem stripR_cons_nonws {c : Char} (h : pyWs c = false) (s : Str) :
    stripR (c :: s) = c :: stripR s := by
  unfold stripR
  rw [List.reverse_cons, dropWhile_append_cases]
  cases hd : (s.reverse.dropWhile pyWs) with
  | nil => simp [List.dropWhile_cons, h]
  | cons d t =>
    rw [if_neg (by simp)]
    rw [List.reverse_append]
    simp

theorem pyStrip_dash (s : Str) : pyStrip ('-' :: s) = '-' :: stripR s := by
  unfold pyStrip
  rw [stripL_cons_nonws (by decide), stripR_cons_nonws (by decide)]

theorem mem_of_dropWhile {p : Char → Bool} {x : Char} {s : Str}
    (h : x ∈ s.dropWhile p) : x ∈ s := by
  have h2 := takeWhile_append_dropWhile p s
  rw [← h2]
  exact List.mem_append_right _ h

theorem mem_of_stripR {x : Char} {s : Str} (h : x ∈ stripR s) : x ∈ s := by
  unfold stripR at h
  rw [List.mem_reverse] at h
  have h2 := mem_of_dropWhile h
  rw [List.mem_reverse] at h2
  exact h2

theorem mem_of_pyStrip {x : Char} {s : Str} (h : x ∈ pyStrip s) : x ∈ s := by
  unfold pyStrip at h
  have h1 := mem_of_stripR h
  unfold stripL at h1
  exact mem_of_dropWhile h1

theorem dropWhile_all_false (p : Char → Bool) : ∀ l : Str,
    (∀ c ∈ l, p c = false) → l.dropWhile p = l := by
  intro l
  induction l with
  | nil => intro _; rfl
  | cons x xs _ =>
    intro h
    rw [List.dropWhile_cons, if_neg (by simp [h x (List.mem_cons_self _ _)])]

theorem dropWhile_all_nil (p : Char → Bool) (l : Str) (h : ∀ c ∈ l, p c = true) :
    l.dropWhile p = [] := by
  have h2 := dropWhile_append_all p l [] h
  simpa using h2

theorem stripR_all_nonws (y : Str) (h : ∀ c ∈ y, pyWs c = false) : stripR y = y := by
  unfold stripR
  rw [dropWhile_all_false pyWs y.reverse (fun c hc => h c (List.mem_reverse.mp hc)),
    List.reverse_reverse]

theorem word_not_ws {c : Char} (h : isWordC c = true) : pyWs c = false := by
  cases hw : pyWs c with
  | false => rfl
  | true =>
    unfold pyWs at hw
    simp only [Bool.or_eq_true] at hw
    rcases hw with ((((h1 | h1) | h1) | h1) | h1) | h1 <;>
      (rw [eq_of_beq h1] at h; exact Bool.noConfusion h)

theorem nil_isPrefixOf : ∀ u : Str, ([] : Str).isPrefixOf u = true := by
  intro u
  cases u <;> rfl

theorem startsWith_dash (u : Str) : startsWith (("-").data) ('-' :: u) = true := by
  show (('-' == '-') && ([] : Str).isPrefixOf u) = true
  rw [nil_isPrefixOf]
  rfl

theorem parseNodeLine_no_pipe (content : Str) (h : ¬ '|' ∈ content) :
    parseNodeLine content = none := by
  unfold parseNodeLine
  rw [splitOnChar_no_sep '|' content h]
  rfl

/-- One unfolded step of the section-dispatch loop at skip counter 0. -/
theorem parseLinesGo_cons_eq (l : Str) (rest : List Str) (sect : Option BSection)
    (b : ArchitectureBlueprint) :
    parseLinesGo 0 (l :: rest) sect b =
      (if (pyStrip l).isEmpty then parseLinesGo 0 rest sect b
       else if startsWith (("Title:").data) (pyStrip l) then
         parseLinesGo 0 rest sect { b with title := pyStrip ((pyStrip l).drop 6) }
       else if startsWith (("Description:").data) (pyStrip l) then
         parseLinesGo 0 rest sect { b with description := pyStrip ((pyStrip l).drop 12) }
       else if pyStrip l = ("Nodes:").data then parseLinesGo 0 rest (some .nodes) b
       else if pyStrip l = ("Clusters:").data then parseLinesGo 0 rest (some .clusters) b
       else if pyStrip l = ("Relationships:").data then
         parseLinesGo 0 rest (some .relationships) b
       else if pyStrip l = ("Metadata:").data then parseLinesGo 0 rest (some .metadata) b
       else if startsWith (("-").data) (pyStrip l) ∧ sect = some .nodes then
         match parseNodeLine (pyStrip ((pyStrip l).drop 1)) with
         | some n => parseLinesGo 0 rest sect { b with nodes := b.nodes ++ [n] }
         | none => parseLinesGo 0 rest sect b
       else if startsWith (("Cluster:").data) (pyStrip l) ∧ sect = some .clusters then
         parseLinesGo (clusterScan [] rest).2 rest sect
           { b with clusters := b.clusters
              ++ [⟨pyStrip ((pyStrip l).drop 8), (clusterScan [] rest).1⟩] }
       else if startsWith (("-").data) (pyStrip l) ∧ sect = some .relationships then
         match matchRelPattern (pyStrip ((pyStrip l).drop 1)) with
         | some p =>
           parseLinesGo 0 rest sect
             { b with relationships := b.relationships ++ [⟨p.1, p.2, ("default").data⟩] }
         | none => parseLinesGo 0 rest sect b
       else parseLinesGo 0 rest sect b) := rfl

theorem parseLinesGo_step_empty (l : Str) (rest : List Str) (sect : Option BSection)
    (b : ArchitectureBlueprint) (h : pyStrip l = []) :
    parseLinesGo 0 (l :: rest) sect b = parseLinesGo 0 rest sect b := by
  rw [parseLinesGo_cons_eq, h]
  rfl

theorem parseLinesGo_step_title (l : Str) (rest : List Str) (sect : Option BSection)
    (b : ArchitectureBlueprint) (t : Str) (h : pyStrip l = (("Title: ").data) ++ t)
    (ht : pyStrip t = t) :
    parseLinesGo 0 (l :: rest) sect b = parseLinesGo 0 rest sect { b with title := t } := by
  rw [parseLinesGo_cons_eq, h]
  have hps : pyStrip (' ' :: t) = t := by
    show stripR (stripL (' ' :: t)) = t
    rw [stripL_cons_ws (by decide)]
    exact ht
  show parseLinesGo 0 rest sect
      { b with title := pyStrip (((("Title: ").data) ++ t).drop 6) } = _
  rw [show ((("Title: ").data) ++ t).drop 6 = ' ' :: t from rfl, hps]

theorem parseLinesGo_step_descr (l : Str) (rest : List Str) (sect : Option BSection)
    (b : ArchitectureBlueprint) (t : Str) (h : pyStrip l = (("Description: ").data) ++ t)
    (ht : pyStrip t = t) :
    parseLinesGo 0 (l :: rest) sect b
      = parseLinesGo 0 rest sect { b with description := t } := by
  rw [parseLinesGo_cons_eq, h]
  have hps : pyStrip (' ' :: t) = t := by
    show stripR (stripL (' ' :: t)) = t
    rw [stripL_cons_ws (by decide)]
    exact ht
  show parseLinesGo 0 rest sect
      { b with description := pyStrip (((("Description: ").data) ++ t).drop 12) } = _
  rw [show ((("Description: ").data) ++ t).drop 12 = ' ' :: t from rfl, hps]

theorem parseLinesGo_step_nodes_label (l : Str) (rest : List Str) (sect : Option BSection)
    (b : ArchitectureBlueprint) (h : pyStrip l = ("Nodes:").data) :
    parseLinesGo 0 (l :: rest) sect b = parseLinesGo 0 rest (some .nodes) b := by
  rw [parseLinesGo_cons_eq, h]
  rfl

theorem parseLinesGo_step_clusters_label (l : Str) (rest : List Str) (sect : Option BSection)
    (b : ArchitectureBlueprint) (h : pyStrip l = ("Clusters:").data) :
    parseLinesGo 0 (l :: rest) sect b = parseLinesGo 0 rest (some .clusters) b := by
  rw [parseLinesGo_cons_eq, h]
  rfl

theorem parseLinesGo_step_rels_label (l : Str) (rest : List Str) (sect : Option BSection)
    (b : ArchitectureBlueprint) (h : pyStrip l = ("Relationships:").data) :
    parseLinesGo 0 (l :: rest) sect b = parseLinesGo 0 rest (some .relationships) b := by
  rw [parseLinesGo_cons_eq, h]
  rfl

theorem parseLinesGo_step_bullet_nodes (l : Str) (rest : List Str)
    (b : ArchitectureBlueprint) (u : Str) (h : pyStrip l = '-' :: u)
    (hnp : parseNodeLine (pyStrip u) = none) :
    parseLinesGo 0 (l :: rest) (some .nodes) b = parseLinesGo 0 rest (some .nodes) b := by
  rw [parseLinesGo_cons_eq, h]
  show (if startsWith (("-").data) ('-' :: u) = true ∧
          (some BSection.nodes : Option BSection) = some BSection.nodes then
        match parseNodeLine (pyStrip (('-' :: u).drop 1)) with
        | some n => parseLinesGo 0 rest (some .nodes) { b with nodes := b.nodes ++ [n] }
        | none => parseLinesGo 0 rest (some .nodes) b
       else if startsWith (("Cluster:").data) ('-' :: u) = true ∧
          (some BSection.nodes : Option BSection) = some BSection.clusters then
         parseLinesGo (clusterScan [] rest).2 rest (some .nodes)
           { b with clusters := b.clusters
              ++ [⟨pyStrip (('-' :: u).drop 8), (clusterScan [] rest).1⟩] }
       else if startsWith (("-").data) ('-' :: u) = true ∧
          (some BSection.nodes : Option BSection) = some BSection.relationships then
         match matchRelPattern (pyStrip (('-' :: u).drop 1)) with
         | some p =>
           parseLinesGo 0 rest (some .nodes)
             { b with relationships := b.relationships ++ [⟨p.1, p.2, ("default").data⟩] }
         | none => parseLinesGo 0 rest (some .nodes) b
       else parseLinesGo 0 rest (some .nodes) b) = parseLinesGo 0 rest (some .nodes) b
  rw [if_pos (And.intro (startsWith_dash u) rfl)]
  rw [show ('-' :: u).drop 1 = u from rfl, hnp]

theorem parseLinesGo_step_bullet_clusters (l : Str) (rest : List Str)
    (b : ArchitectureBlueprint) (u : Str) (h : pyStrip l = '-' :: u) :
    parseLinesGo 0 (l :: rest) (some .clusters) b
      = parseLinesGo 0 rest (some .clusters) b := by
  rw [parseLinesGo_cons_eq, h]
  show (if startsWith (("-").data) ('-' :: u) = true ∧
          (some BSection.clusters : Option BSection) = some BSection.nodes then
        match parseNodeLine (pyStrip (('-' :: u).drop 1)) with
        | some n => parseLinesGo 0 rest (some .clusters) { b with nodes := b.nodes ++ [n] }
        | none => parseLinesGo 0 rest (some .clusters) b
       else if startsWith (("Cluster:").data) ('-' :: u) = true ∧
          (some BSection.clusters : Option BSection) = some BSection.clusters then
         parseLinesGo (clusterScan [] rest).2 rest (some .clusters)
           { b with clusters := b.clusters
              ++ [⟨pyStrip (('-' :: u).drop 8), (clusterScan [] rest).1⟩] }
       else if startsWith (("-").data) ('-' :: u) = true ∧
          (some BSection.clusters : Option BSection) = some BSection.relationships then
         match matchRelPattern (pyStrip (('-' :: u).drop 1)) with
         | some p =>
           parseLinesGo 0 rest (some .clusters)
             { b with relationships := b.relationships ++ [⟨p.1, p.2, ("default").data⟩] }
         | none => parseLinesGo 0 rest (some .clusters) b
       else parseLinesGo 0 rest (some .clusters) b) = parseLinesGo 0 rest (some .clusters) b
  rw [if_neg (fun hx => absurd (Option.some.inj hx.2) (by decide))]
  rw [if_neg (fun hx => Bool.noConfusion hx.1)]
  rw [if_neg (fun hx => absurd (Option.some.inj hx.2) (by decide))]

theorem parseLinesGo_step_bullet_rel (l : Str) (rest : List Str)
    (b : ArchitectureBlueprint) (u : Str) (p : Str × Str) (h : pyStrip l = '-' :: u)
    (hmr : matchRelPattern (pyStrip u) = some p) :
    parseLinesGo 0 (l :: rest) (some .relationships) b
      = parseLinesGo 0 rest (some .relationships)
          { b with relationships := b.relationships ++ [⟨p.1, p.2, ("default").data⟩] } := by
  rw [parseLinesGo_cons_eq, h]
  show (if startsWith (("-").data) ('-' :: u) = true ∧
          (some BSection.relationships : Option BSection) = some BSection.nodes then
        match parseNodeLine (pyStrip (('-' :: u).drop 1)) with
        | some n =>
          parseLinesGo 0 rest (some .relationships) { b with nodes := b.nodes ++ [n] }
        | none => parseLinesGo 0 rest (some .relationships) b
       else if startsWith (("Cluster:").data) ('-' :: u) = true ∧
          (some BSection.relationships : Option BSection) = some BSection.clusters then
         parseLinesGo (clusterScan [] rest).2 rest (some .relationships)
           { b with clusters := b.clusters
              ++ [⟨pyStrip (('-' :: u).drop 8), (clusterScan [] rest).1⟩] }
       else if startsWith (("-").data) ('-' :: u) = true ∧
          (some BSection.relationships : Option BSection) = some BSection.relationships then
         match matchRelPattern (pyStrip (('-' :: u).drop 1)) with
         | some q =>
           parseLinesGo 0 rest (some .relationships)
             { b with relationships := b.relationships ++ [⟨q.1, q.2, ("default").data⟩] }
         | none => parseLinesGo 0 rest (some .relationships) b
       else parseLinesGo 0 rest (some .relationships) b)
      = parseLinesGo 0 rest (some .relationships)
          { b with relationships := b.relationships ++ [⟨p.1, p.2, ("default").data⟩] }
  rw [if_neg (fun hx => absurd (Option.some.inj hx.2) (by decide))]
  rw [if_neg (fun hx => Bool.noConfusion hx.1)]
  rw [if_pos (And.intro (startsWith_dash u) rfl)]
  rw [show ('-' :: u).drop 1 = u from rfl, hmr]

theorem length_stripR_le (x : Str) : (stripR x).length ≤ x.length := by
  unfold stripR
  rw [List.length_reverse]
  have h := length_dropWhile_le pyWs x.reverse
  rw [List.length_reverse] at h
  exact h

theorem pyStrip_self_parts (t : Str) (h : pyStrip t = t) :
    stripL t = t ∧ stripR t = t := by
  have e1 : t.length = (pyStrip t).length := by rw [h]
  have e2 : (pyStrip t).length ≤ (stripL t).length := length_stripR_le (stripL t)
  have e3 : (stripL t).length ≤ t.length := length_dropWhile_le pyWs t
  have e5 : t = t.takeWhile pyWs ++ stripL t := (takeWhile_append_dropWhile pyWs t).symm
  have e6 : (t.takeWhile pyWs).length = 0 := by
    have e7 := congrArg List.length e5
    rw [List.length_append] at e7
    omega
  have e8 : t.takeWhile pyWs = [] := List.eq_nil_of_length_eq_zero e6
  have hL : stripL t = t := by
    conv_rhs => rw [e5]
    rw [e8, List.nil_append]
  refine ⟨hL, ?_⟩
  have h2 := h
  unfold pyStrip at h2
  rw [hL] at h2
  exact h2

theorem stripL_descr (Z : Str) :
    stripL ((("Description: ").data) ++ Z) = (("Description: ").data) ++ Z := by
  have h : (("Description: ").data) ++ Z = 'D' :: ((("escription: ").data) ++ Z) := rfl
  rw [h, stripL_cons_nonws (by decide)]

theorem pyStrip_titleLine (b : ArchitectureBlueprint)
    (h : pyStrip b.title = b.title) (hne : b.title ≠ []) :
    pyStrip (titleLine b) = titleLine b := by
  obtain ⟨hL, hR⟩ := pyStrip_self_parts _ h
  unfold pyStrip titleLine
  rw [stripL_title]
  exact stripR_append_of_keep b.title hR hne _

theorem pyStrip_descrLine (b : ArchitectureBlueprint)
    (h : pyStrip b.description = b.description) (hne : b.description ≠ []) :
    pyStrip (descrLine b) = descrLine b := by
  obtain ⟨hL, hR⟩ := pyStrip_self_parts _ h
  unfold pyStrip descrLine
  rw [stripL_descr]
  exact stripR_append_of_keep b.description hR hne _

theorem matchRelPattern_formatted (src dst : Str) (hsne : src ≠ []) (hdne : dst ≠ [])
    (hsw : ∀ c ∈ src, isWordC c = true) (hdw : ∀ c ∈ dst, isWordC c = true) :
    matchRelPattern (src ++ ((" >> ").data ++ dst)) = some (src, dst) := by
  obtain ⟨c, cs, rfl⟩ : ∃ c cs, src = c :: cs := by
    cases src with
    | nil => exact absurd rfl hsne
    | cons c cs => exact ⟨c, cs, rfl⟩
  obtain ⟨d, ds, rfl⟩ : ∃ d ds, dst = d :: ds := by
    cases dst with
    | nil => exact absurd rfl hdne
    | cons d ds => exact ⟨d, ds, rfl⟩
  have hw1 : ((c :: cs) ++ ((" >> ").data ++ (d :: ds))).takeWhile isWordC = c :: cs := by
    rw [takeWhile_append_all isWordC (c :: cs) _ hsw]
    rw [show ((" >> ").data ++ (d :: ds) : Str) = ' ' :: ('>' :: ('>' :: (' ' :: (d :: ds))))
      from rfl]
    rw [List.takeWhile_cons, if_neg (by decide), List.append_nil]
  have hdw1 : ((c :: cs) ++ ((" >> ").data ++ (d :: ds))).dropWhile isWordC
      = ' ' :: ('>' :: ('>' :: (' ' :: (d :: ds)))) := by
    rw [dropWhile_append_all isWordC (c :: cs) _ hsw]
    rw [show ((" >> ").data ++ (d :: ds) : Str) = ' ' :: ('>' :: ('>' :: (' ' :: (d :: ds))))
      from rfl]
    rw [List.dropWhile_cons, if_neg (by decide)]
  have hspace1 : (' ' :: ('>' :: ('>' :: (' ' :: (d :: ds))))).dropWhile isSpaceC
      = '>' :: ('>' :: (' ' :: (d :: ds))) := by
    rw [List.dropWhile_cons, if_pos (by decide), List.dropWhile_cons, if_neg (by decide)]
  have hr4 : (' ' :: (d :: ds)).dropWhile isSpaceC = d :: ds := by
    rw [List.dropWhile_cons, if_pos (by decide)]
    exact dropWhile_all_false isSpaceC (d :: ds) (fun x hx => word_not_ws (hdw x hx))
  have hw2 : (d :: ds).takeWhile isWordC = d :: ds := takeWhile_all_eq _ _ hdw
  have hdw2 : (d :: ds).dropWhile isWordC = [] := dropWhile_all_nil _ _ hdw
  unfold matchRelPattern
  rw [hw1, hdw1]
  simp [hspace1, hr4, hw2, hdw2]

theorem nodeLines_walk : ∀ ns : List BNode, (∀ n ∈ ns, ¬ '|' ∈ nodeLineCore n) →
    ∀ (rest : List Str) (b : ArchitectureBlueprint),
    parseLinesGo 0 (ns.map nodeLineCore ++ rest) (some .nodes) b
      = parseLinesGo 0 rest (some .nodes) b := by
  intro ns
  induction ns with
  | nil => intro _ rest b; rw [List.map_nil, List.nil_append]
  | cons n ns ih =>
    intro h rest b
    rw [List.map_cons, List.cons_append]
    have hc : nodeLineCore n = '-' :: (nodeLineCore n).tail := rfl
    have hstrip : pyStrip (nodeLineCore n) = '-' :: stripR ((nodeLineCore n).tail) := by
      rw [hc, pyStrip_dash]
      rfl
    have hnp : parseNodeLine (pyStrip (stripR ((nodeLineCore n).tail))) = none := by
      apply parseNodeLine_no_pipe
      intro hm
      exact h n (List.mem_cons_self _ _)
        (by rw [hc]; exact List.mem_cons_of_mem _ (mem_of_stripR (mem_of_pyStrip hm)))
    rw [parseLinesGo_step_bullet_nodes _ _ _ _ hstrip hnp]
    exact ih (fun a ha => h a (List.mem_cons_of_mem _ ha)) rest b

theorem clusterLines_walk : ∀ cs : List BCluster,
    ∀ (rest : List Str) (b : ArchitectureBlueprint),
    parseLinesGo 0 (cs.map clusterLineCore ++ rest) (some .clusters) b
      = parseLinesGo 0 rest (some .clusters) b := by
  intro cs
  induction cs with
  | nil => intro rest b; rw [List.map_nil, List.nil_append]
  | cons c cs ih =>
    intro rest b
    rw [List.map_cons, List.cons_append]
    have hcc : clusterLineCore c = '-' :: (clusterLineCore c).tail := rfl
    have hstrip : pyStrip (clusterLineCore c) = '-' :: stripR ((clusterLineCore c).tail) := by
      rw [hcc, pyStrip_dash]
      rfl
    rw [parseLinesGo_step_bullet_clusters _ _ _ _ hstrip]
    exact ih rest b

theorem relLines_walk : ∀ rs : List BRel,
    (∀ r ∈ rs, r.source ≠ [] ∧ r.destination ≠ [] ∧
      (∀ c ∈ r.source, isWordC c = true) ∧ (∀ c ∈ r.destination, isWordC c = true)) →
    ∀ b : ArchitectureBlueprint,
    parseLinesGo 0 (rs.map relLineCore) (some .relationships) b
      = { b with relationships := b.relationships
            ++ rs.map (fun r => ⟨r.source, r.destination, ("default").data⟩) } := by
  intro rs
  induction rs with
  | nil =>
    intro _ b
    show b = _
    simp
  | cons r rs ih =>
    intro h b
    obtain ⟨hsne, hdne2, hsw, hdw⟩ := h r (List.mem_cons_self _ _)
    have hshape_r : relLineCore r
        = '-' :: (' ' :: (r.source ++ ((" >> ").data ++ r.destination))) := by
      unfold relLineCore
      rw [show ("- ").data = ['-', ' '] from rfl]
      simp [List.append_assoc]
    have hkeepR : stripR (' ' :: (r.source ++ ((" >> ").data ++ r.destination)))
        = ' ' :: (r.source ++ ((" >> ").data ++ r.destination)) := by
      have hx : ' ' :: (r.source ++ ((" >> ").data ++ r.destination))
          = (' ' :: (r.source ++ (" >> ").data)) ++ r.destination := by
        simp [List.append_assoc]
      rw [hx]
      exact stripR_append_of_keep r.destination
        (stripR_all_nonws _ (fun x hx2 => word_not_ws (hdw x hx2))) hdne2 _
    have hstrip : pyStrip (relLineCore r)
        = '-' :: (' ' :: (r.source ++ ((" >> ").data ++ r.destination))) := by
      rw [hshape_r, pyStrip_dash, hkeepR]
    have hcontent : pyStrip (' ' :: (r.source ++ ((" >> ").data ++ r.destination)))
        = r.source ++ ((" >> ").data ++ r.destination) := by
      obtain ⟨c, cs, hsrc⟩ : ∃ c cs, r.source = c :: cs := by
        cases hs : r.source with
        | nil => exact absurd hs hsne
        | cons c cs => exact ⟨c, cs, rfl⟩
      show stripR (stripL (' ' :: (r.source ++ ((" >> ").data ++ r.destination)))) = _
      rw [stripL_cons_ws (by decide)]
      have hXc : r.source ++ ((" >> ").data ++ r.destination)
          = c :: (cs ++ ((" >> ").data ++ r.destination)) := by
        rw [hsrc, List.cons_append]
      rw [hXc, stripL_cons_nonws
        (word_not_ws (hsw c (by rw [hsrc]; exact List.mem_cons_self _ _))), ← hXc]
      have hx2 : r.source ++ ((" >> ").data ++ r.destination)
          = (r.source ++ (" >> ").data) ++ r.destination := by
        simp [List.append_assoc]
      rw [hx2]
      exact stripR_append_of_keep r.destination
        (stripR_all_nonws _ (fun x hx3 => word_not_ws (hdw x hx3))) hdne2 _
    have hmr : matchRelPattern (pyStrip (' ' :: (r.source ++ ((" >> ").data ++ r.destination))))
        = some (r.source, r.destination) := by
      rw [hcontent]
      exact matchRelPattern_formatted r.source r.destination hsne hdne2 hsw hdw
    rw [List.map_cons,
      parseLinesGo_step_bullet_rel _ _ _ _ (r.source, r.destination) hstrip hmr]
    rw [ih (fun a ha => h a (List.mem_cons_of_mem _ ha))]
    simp [List.append_assoc]

/-- Parsing the body lines of a formatted blueprint: the title and
description are recovered, every node and cluster line is dropped, and
the relationship lines are recovered with connection type `default`. -/
theorem parse_bodyLines (b : ArchitectureBlueprint)
    (htitle : pyStrip b.title = b.title) (htne : b.title ≠ [])
    (hdescr : pyStrip b.description = b.description) (hdne : b.description ≠ [])
    (hnodes : ∀ n ∈ b.nodes, ¬ '|' ∈ nodeLineCore n)
    (hrels : ∀ r ∈ b.relationships, r.source ≠ [] ∧ r.destination ≠ [] ∧
      (∀ c ∈ r.source, isWordC c = true) ∧ (∀ c ∈ r.destination, isWordC c = true)) :
    parseLinesGo 0 (bodyLines b) none defaultBlueprint
      = { title := b.title, description := b.description, nodes := [], clusters := [],
          relationships := b.relationships.map
            (fun r => ⟨r.source, r.destination, ("default").data⟩) } := by
  have ht1 : pyStrip (titleLine b) = (("Title: ").data) ++ b.title := by
    rw [pyStrip_titleLine b htitle htne]
    rfl
  have hd1 : pyStrip (descrLine b) = (("Description: ").data) ++ b.description := by
    rw [pyStrip_descrLine b hdescr hdne]
    rfl
  unfold bodyLines
  simp only [List.cons_append, List.nil_append, List.append_assoc]
  rw [parseLinesGo_step_title _ _ _ _ b.title ht1 htitle]
  rw [parseLinesGo_step_descr _ _ _ _ b.description hd1 hdescr]
  rw [parseLinesGo_step_empty ([] : Str) _ _ _ rfl]
  rw [parseLinesGo_step_nodes_label _ _ _ _ (by decide)]
  rw [nodeLines_walk b.nodes hnodes]
  cases hce : b.clusters.isEmpty with
  | true =>
    rw [if_pos rfl, List.nil_append]
    rw [parseLinesGo_step_empty ([] : Str) _ _ _ rfl]
    rw [parseLinesGo_step_rels_label _ _ _ _ (by decide)]
    rw [relLines_walk b.relationships hrels]
    simp [defaultBlueprint]
  | false =>
    rw [if_neg (fun hx => Bool.noConfusion hx)]
    simp only [List.cons_append, List.nil_append, List.append_assoc]
    rw [parseLinesGo_step_empty ([] : Str) _ _ _ rfl]
    rw [parseLinesGo_step_clusters_label _ _ _ _ (by decide)]
    rw [clusterLines_walk b.clusters]
    rw [parseLinesGo_step_empty ([] : Str) _ _ _ rfl]
    rw [parseLinesGo_step_rels_label _ _ _ _ (by decide)]
    rw [relLines_walk b.relationships hrels]
    simp [defaultBlueprint]

set_option maxRecDepth 8000 in
/-- **C3** (counterexample).  A blueprint with one node and one cluster
formats to text whose node line `- Web as web (Type: EC2)` and cluster line
`- C1 contains web` the parser cannot read back: the round trip returns
empty node and cluster lists (the relationship survives), so
`compile(format B)` does not preserve nodes and clusters. -/
theorem claim_C3_counterexample :
    roundTripCex.nodes ≠ [] ∧ roundTripCex.clusters ≠ [] ∧
    parseBlueprintText (formatBlueprint roundTripCex)
      = .ok ⟨roundTripCex.title, roundTripCex.description, [], [],
             roundTripCex.relationships⟩ := by
  refine ⟨by decide, by decide, by rfl⟩

/-- **C3** (amended).  The format/compile round trip preserves the title,
the description, and the relationship list (with every connection type
collapsed to `default`), for blueprints whose fields are well formed
(single-line strip-invariant title and description, no `|` in node lines,
non-empty all-word relationship endpoints, no stray end marker before the
final line, and no trailing whitespace in the joined body).  Nodes and
clusters are NOT preserved: the parser always returns them empty, because
`__str__` writes `- name as var (Type: t)` and `- name contains a, b`
while the parser only accepts `|`-separated `ID:`/`Type:` bullets and
`Cluster:`/`Members:` blocks (see the counterexample). -/
theorem claim_C3 (b : ArchitectureBlueprint)
    (hend : findSub endMarker (formatBlueprint b)
      = some ((formatBlueprint b).length - 20))
    (hkeep : stripR (joinSep [ '\n' ] (bodyLines b)) = joinSep [ '\n' ] (bodyLines b))
    (hnl : ∀ l ∈ bodyLines b, ¬ '\n' ∈ l)
    (htitle : pyStrip b.title = b.title) (htne : b.title ≠ [])
    (hdescr : pyStrip b.description = b.description) (hdne : b.description ≠ [])
    (hnodes : ∀ n ∈ b.nodes, ¬ '|' ∈ nodeLineCore n)
    (hrels : ∀ r ∈ b.relationships, r.source ≠ [] ∧ r.destination ≠ [] ∧
      (∀ c ∈ r.source, isWordC c = true) ∧ (∀ c ∈ r.destination, isWordC c = true)) :
    parseBlueprintText (formatBlueprint b)
      = .ok { title := b.title, description := b.description, nodes := [], clusters := [],
              relationships := b.relationships.map
                (fun r => ⟨r.source, r.destination, ("default").data⟩) } := by
  have hex := extract_format b hend hkeep
  unfold parseBlueprintText
  rw [hex]
  show Except.ok (parseLinesGo 0 (splitOnChar '\n' (joinSep [ '\n' ] (bodyLines b)))
      none defaultBlueprint) = _
  rw [splitOnChar_joinSep '\n' (bodyLines b) hnl (fun hn => List.noConfusion hn)]
  rw [parse_bodyLines b htitle htne hdescr hdne hnodes hrels]

set_option maxRecDepth 8000 in
/-- **C3** witness: the amended round-trip theorem applied to the concrete
blueprint of the counterexample, every hypothesis discharged by
computation. -/
theorem claim_C3_witness :
    parseBlueprintText (formatBlueprint roundTripCex)
      = .ok { title := roundTripCex.title, description := roundTripCex.description,
              nodes := [], clusters := [],
              relationships := roundTripCex.relationships.map
                (fun r => ⟨r.source, r.destination, ("default").data⟩) } :=
  claim_C3 roundTripCex (by decide) (by decide) (by decide) (by decide) (by decide)
    (by decide) (by decide) (by decide) (by decide)

end CloudForge
